import Mathlib

/-!
Verification development for the ohmyremote execution backbone.

The TypeScript sources are shallowly embedded: strings are lists of
characters (`Str`), JSON values are an inductive `Json` type, stateful
components become explicit state passing or step relations, and
`JSON.parse` is treated as an abstract oracle `Str → Option Json`
(counterexamples instantiate it on the concrete lines they use, agreeing
with the real parse on those lines).  Byte streams are modelled after
UTF-8 decoding: the streaming `TextDecoder` buffers partial code points,
so for UTF-8-valid input the decoded characters of two concatenated
chunks equal the decoded characters of the concatenation.
-/

abbrev Str := List Char

/-- JSON values as produced by `JSON.parse`: objects are association
lists in key order with distinct keys. -/
inductive Json where
  | null : Json
  | bool (b : Bool) : Json
  | num (n : Int) : Json
  | str (s : Str) : Json
  | arr (items : List Json) : Json
  | obj (fields : List (Str × Json)) : Json

/-- Field access `parsed.key` on a parsed JSON value: `none` when the
value is not an object or lacks the key. -/
def Json.getField (j : Json) (key : Str) : Option Json :=
  match j with
  | Json.obj fields =>
      match fields.find? (fun f => f.1 = key) with
      | some f => some f.2
      | none => none
  | _ => none

/-- `typeof v === "string" && v.length > 0 ? v : undefined` applied to a
field lookup (`isNonEmptyString` / `asOptionalString` in the adapters). -/
def Json.getNonEmptyString (j : Json) (key : Str) : Option Str :=
  match j.getField key with
  | some (Json.str s) => if s = [] then none else some s
  | _ => none

/-! ## LineFramer (`createLineDecoder`, packages/core/src/line-decoder.ts)

The decoder keeps the characters after the final newline as `pending`.
`push` appends the chunk and extracts complete lines, stripping one
trailing carriage return per line; `flush` emits a non-empty buffer as a
single final line.
-/

/-- `line.endsWith('\r') ? line.slice(0, -1) : line`. -/
def stripCR (l : Str) : Str :=
  if l.getLast? = some '\r' then l.dropLast else l

/-- Split on newline characters into the successive segments (the last
segment is the text after the final newline, possibly empty). -/
def splitNL : Str → List Str
  | [] => [[]]
  | c :: rest =>
      if c = '\n' then [] :: splitNL rest
      else
        match splitNL rest with
        | [] => [[c]]
        | s :: ss => (c :: s) :: ss

/-- All segments but the last: the complete lines of the buffer. -/
def initSegs : List Str → List Str
  | [] => []
  | [_] => []
  | s :: rest => s :: initSegs rest

/-- The final segment: the text after the last newline. -/
def lastSeg : List Str → Str
  | [] => []
  | [s] => s
  | _ :: rest => lastSeg rest

/-- Prepend a prefix onto the first element of a segment list. -/
def consHead (x : Str) : List Str → List Str
  | [] => [x]
  | s :: ss => (x ++ s) :: ss

theorem splitNL_ne_nil (l : Str) : splitNL l ≠ [] := by
  cases l with
  | nil => simp [splitNL]
  | cons c rest =>
      simp only [splitNL]
      split
      · simp
      · cases splitNL rest <;> simp

theorem splitNL_cons (c : Char) (l : Str) :
    splitNL (c :: l) = if c = '\n' then [] :: splitNL l else consHead [c] (splitNL l) := by
  simp only [splitNL]
  split
  · rfl
  · cases splitNL l <;> simp [consHead]

theorem consHead_ne_nil (x : Str) (S : List Str) : consHead x S ≠ [] := by
  cases S <;> simp [consHead]

theorem consHead_nil_of_ne_nil (S : List Str) (h : S ≠ []) : consHead [] S = S := by
  cases S with
  | nil => exact absurd rfl h
  | cons s ss => simp [consHead]

theorem consHead_consHead (x y : Str) (S : List Str) :
    consHead x (consHead y S) = consHead (x ++ y) S := by
  cases S <;> simp [consHead]

theorem initSegs_cons_of_ne_nil (x : Str) (S : List Str) (h : S ≠ []) :
    initSegs (x :: S) = x :: initSegs S := by
  cases S with
  | nil => exact absurd rfl h
  | cons s ss => rfl

theorem lastSeg_cons_of_ne_nil (x : Str) (S : List Str) (h : S ≠ []) :
    lastSeg (x :: S) = lastSeg S := by
  cases S with
  | nil => exact absurd rfl h
  | cons s ss => rfl

theorem initSegs_append (xs ys : List Str) (h : ys ≠ []) :
    initSegs (xs ++ ys) = xs ++ initSegs ys := by
  induction xs with
  | nil => rfl
  | cons x xs ih =>
      have hne : xs ++ ys ≠ [] := by
        intro hc
        rcases List.append_eq_nil.mp hc with ⟨_, h2⟩
        exact h h2
      rw [List.cons_append, initSegs_cons_of_ne_nil x _ hne, ih, List.cons_append]

theorem lastSeg_append (xs ys : List Str) (h : ys ≠ []) :
    lastSeg (xs ++ ys) = lastSeg ys := by
  induction xs with
  | nil => rfl
  | cons x xs ih =>
      have hne : xs ++ ys ≠ [] := by
        intro hc
        rcases List.append_eq_nil.mp hc with ⟨_, h2⟩
        exact h h2
      rw [List.cons_append, lastSeg_cons_of_ne_nil x _ hne, ih]

theorem splitNL_append (a b : Str) :
    splitNL (a ++ b) =
      initSegs (splitNL a) ++ consHead (lastSeg (splitNL a)) (splitNL b) := by
  induction a with
  | nil =>
      simp only [List.nil_append, splitNL, initSegs, lastSeg]
      rw [consHead_nil_of_ne_nil _ (splitNL_ne_nil b)]
  | cons c rest ih =>
      rw [List.cons_append, splitNL_cons, splitNL_cons]
      by_cases h : c = '\n'
      · rw [if_pos h, if_pos h, ih,
          initSegs_cons_of_ne_nil _ _ (splitNL_ne_nil rest),
          lastSeg_cons_of_ne_nil _ _ (splitNL_ne_nil rest), List.cons_append]
      · rw [if_neg h, if_neg h, ih]
        rcases hS : splitNL rest with _ | ⟨s, ss⟩
        · exact absurd hS (splitNL_ne_nil rest)
        · cases ss with
          | nil =>
              cases splitNL b <;>
                simp [consHead, initSegs, lastSeg, List.append_assoc]
          | cons s2 ss2 =>
              simp only [initSegs, lastSeg, consHead, List.cons_append]

theorem splitNL_of_no_newline (l : Str) (h : '\n' ∉ l) : splitNL l = [l] := by
  induction l with
  | nil => rfl
  | cons c rest ih =>
      simp only [List.mem_cons, not_or] at h
      rw [splitNL_cons, if_neg (fun hc => h.1 hc.symm), ih h.2]
      rfl

theorem no_newline_in_lastSeg (l : Str) : '\n' ∉ lastSeg (splitNL l) := by
  induction l with
  | nil => simp [splitNL, lastSeg]
  | cons c rest ih =>
      rw [splitNL_cons]
      by_cases h : c = '\n'
      · rw [if_pos h, lastSeg_cons_of_ne_nil _ _ (splitNL_ne_nil rest)]
        exact ih
      · rw [if_neg h]
        rcases hS : splitNL rest with _ | ⟨s, ss⟩
        · exact absurd hS (splitNL_ne_nil rest)
        · rw [hS] at ih
          cases ss with
          | nil =>
              simp only [lastSeg] at ih
              simp only [consHead, List.singleton_append, lastSeg,
                List.mem_cons, not_or]
              exact ⟨fun hc => h hc.symm, ih⟩
          | cons s2 ss2 =>
              simpa [consHead, lastSeg] using ih

/-- The `extractLines` closure of `createLineDecoder`: returns the
complete lines (each with one trailing `\r` stripped) and the new
pending buffer (the text after the final newline). -/
def extractLines (source : Str) : List Str × Str :=
  ((initSegs (splitNL source)).map stripCR, lastSeg (splitNL source))

/-- `push(chunk)` on a decoder with buffer `pending`. -/
def lineDecoderPush (pending : Str) (chunk : Str) : List Str × Str :=
  extractLines (pending ++ chunk)

/-- `flush()` on a decoder with buffer `pending`: a non-empty buffer is
emitted as one final line (after trailing-`\r` stripping). -/
def lineDecoderFlush (pending : Str) : List Str :=
  if pending = [] then [] else [stripCR pending]

/-- Feed a sequence of chunks through a fresh decoder via `push`, then
`flush`; collect every emitted line in order. -/
def lineDecoderRun (chunks : List Str) : List Str :=
  let final := chunks.foldl
    (fun (acc : List Str × Str) chunk =>
      let r := lineDecoderPush acc.2 chunk
      (acc.1 ++ r.1, r.2))
    ([], [])
  final.1 ++ lineDecoderFlush final.2

theorem extractLines_append (a b : Str) :
    extractLines (a ++ b) =
      ((extractLines a).1 ++ (extractLines ((extractLines a).2 ++ b)).1,
        (extractLines ((extractLines a).2 ++ b)).2) := by
  have hA : splitNL ((extractLines a).2 ++ b) =
      consHead (lastSeg (splitNL a)) (splitNL b) := by
    rw [extractLines, splitNL_append,
      splitNL_of_no_newline _ (no_newline_in_lastSeg a)]
    rfl
  have hmain := splitNL_append a b
  have hne : consHead (lastSeg (splitNL a)) (splitNL b) ≠ [] :=
    consHead_ne_nil _ _
  simp only [extractLines] at hA ⊢
  rw [hmain, hA, initSegs_append _ _ hne, lastSeg_append _ _ hne,
    List.map_append]

/-- C8 auxiliary: pushing two chunks separately produces the same lines
and the same pending buffer as pushing their concatenation. -/
theorem lineDecoderPush_split (p a b : Str) :
    (lineDecoderPush p (a ++ b)).1 =
      (lineDecoderPush p a).1 ++ (lineDecoderPush (lineDecoderPush p a).2 b).1 ∧
    (lineDecoderPush p (a ++ b)).2 = (lineDecoderPush (lineDecoderPush p a).2 b).2 := by
  have h := extractLines_append (p ++ a) b
  constructor
  · have := congrArg Prod.fst h
    simpa [lineDecoderPush, List.append_assoc] using this
  · have := congrArg Prod.snd h
    simpa [lineDecoderPush, List.append_assoc] using this

/-- C8: Line-framer split invariance (round trip).  For every decoded
UTF-8-valid input and every split of it into chunks `a` and `b`,
`push(a); push(b); flush()` on a fresh line decoder emits exactly the
same sequence of lines as `push(a ++ b); flush()` on a fresh decoder. -/
theorem lineDecoder_roundTrip (a b : Str) :
    lineDecoderRun [a, b] = lineDecoderRun [a ++ b] := by
  have h := lineDecoderPush_split [] a b
  simp only [lineDecoderRun, List.foldl, List.nil_append]
  rw [h.1, h.2, List.append_assoc]

/-! ## EngineEventModel (part: engine-events.ts)

The closed tagged union of normalized events and
`parseNormalizedEngineEvent`.  JavaScript `unknown` values are modelled
as `Json`; `raw` slots keep the originating value.
-/

inductive EngineRunStatus where
  | success : EngineRunStatus
  | error : EngineRunStatus
  | cancelled : EngineRunStatus
  | unknown : EngineRunStatus
deriving DecidableEq

inductive NormalizedEngineEvent where
  | run_started (runId : Option Str) (timestamp : Option Str) (raw : Option Json)
  | engine_meta (engine : Option Str) (model : Option Str) (metadata : Option Json)
      (raw : Option Json)
  | text_delta (text : Str) (channel : Option Str) (raw : Option Json)
  | tool_start (toolName : Str) (callId : Option Str) (input : Option Json)
      (raw : Option Json)
  | tool_end (toolName : Str) (callId : Option Str) (output : Option Json)
      (raw : Option Json)
  | error (message : Str) (code : Option Str) (raw : Option Json)
  | run_finished (status : EngineRunStatus) (raw : Option Json)
  | file_uploaded (filePath : Option Str) (fileName : Option Str)
      (sizeBytes : Option Int) (url : Option Str) (raw : Option Json)
  | file_downloaded (filePath : Option Str) (fileName : Option Str)
      (sizeBytes : Option Int) (url : Option Str) (raw : Option Json)

/-- `asOptionalString(value.key)`: the field when it is a string
(possibly empty), `undefined` otherwise. -/
def asOptStrField (j : Json) (key : Str) : Option Str :=
  match j.getField key with
  | some (Json.str s) => some s
  | _ => none

/-- `asOptionalNumber(value.key)`: the field when it is a finite number. -/
def asOptNumField (j : Json) (key : Str) : Option Int :=
  match j.getField key with
  | some (Json.num n) => some n
  | _ => none

/-- `asOptionalRecord(value.key)`: the field when `typeof` is `object`
and not `null` (JavaScript arrays also satisfy this). -/
def asOptRecField (j : Json) (key : Str) : Option Json :=
  match j.getField key with
  | some (Json.obj f) => some (Json.obj f)
  | some (Json.arr xs) => some (Json.arr xs)
  | _ => none

/-- `asRunStatus(value.status)`: the literal strings `success`, `error`
and `cancelled` map to themselves, anything else to `unknown`. -/
def asRunStatusField (j : Json) : EngineRunStatus :=
  match j.getField "status".data with
  | some (Json.str s) =>
      if s = "success".data then EngineRunStatus.success
      else if s = "error".data then EngineRunStatus.error
      else if s = "cancelled".data then EngineRunStatus.cancelled
      else EngineRunStatus.unknown
  | _ => EngineRunStatus.unknown

/-- `parseNormalizedEngineEvent(value)`: strict normalization of the
closed union; a structure that is not recognized yields `none`. -/
def parseNormalizedEngineEvent (value : Json) : Option NormalizedEngineEvent :=
  match value.getField "type".data with
  | some (Json.str t) =>
      if t = "run_started".data then
        some (NormalizedEngineEvent.run_started (asOptStrField value "runId".data)
          (asOptStrField value "timestamp".data) (some value))
      else if t = "engine_meta".data then
        some (NormalizedEngineEvent.engine_meta (asOptStrField value "engine".data)
          (asOptStrField value "model".data) (asOptRecField value "metadata".data)
          (some value))
      else if t = "text_delta".data then
        match asOptStrField value "text".data with
        | none => none
        | some text =>
            some (NormalizedEngineEvent.text_delta text
              (asOptStrField value "channel".data) (some value))
      else if t = "tool_start".data then
        match asOptStrField value "toolName".data with
        | none => none
        | some toolName =>
            some (NormalizedEngineEvent.tool_start toolName
              (asOptStrField value "callId".data) (value.getField "input".data)
              (some value))
      else if t = "tool_end".data then
        match asOptStrField value "toolName".data with
        | none => none
        | some toolName =>
            some (NormalizedEngineEvent.tool_end toolName
              (asOptStrField value "callId".data) (value.getField "output".data)
              (some value))
      else if t = "error".data then
        match asOptStrField value "message".data with
        | none => none
        | some message =>
            some (NormalizedEngineEvent.error message
              (asOptStrField value "code".data) (some value))
      else if t = "run_finished".data then
        some (NormalizedEngineEvent.run_finished (asRunStatusField value) (some value))
      else if t = "file_uploaded".data then
        some (NormalizedEngineEvent.file_uploaded (asOptStrField value "filePath".data)
          (asOptStrField value "fileName".data) (asOptNumField value "sizeBytes".data)
          (asOptStrField value "url".data) (some value))
      else if t = "file_downloaded".data then
        some (NormalizedEngineEvent.file_downloaded (asOptStrField value "filePath".data)
          (asOptStrField value "fileName".data) (asOptNumField value "sizeBytes".data)
          (asOptStrField value "url".data) (some value))
      else none
  | _ => none

/-! ## Shared parser plumbing -/

/-- `line.trim().length === 0`: the line consists of whitespace only. -/
def isBlank (l : Str) : Bool :=
  l.all fun c =>
    c = ' ' || c = '\t' || c = '\n' || c = '\r' ||
    c = Char.ofNat 11 || c = Char.ofNat 12

/-- The `event.type === 'run_finished'` discriminator check. -/
def isRunFinished : NormalizedEngineEvent → Bool
  | NormalizedEngineEvent.run_finished _ _ => true
  | _ => false

/-- The shared emit guard: a `run_finished` event is dropped once the
flag is set (and sets the flag otherwise); all other events pass. -/
def pushGated (acc : Bool × List NormalizedEngineEvent) (e : NormalizedEngineEvent) :
    Bool × List NormalizedEngineEvent :=
  if isRunFinished e then
    if acc.1 then acc else (true, acc.2 ++ [e])
  else (acc.1, acc.2 ++ [e])

def countRF (es : List NormalizedEngineEvent) : Nat :=
  (es.filter isRunFinished).length

def boolToNat (b : Bool) : Nat := if b then 1 else 0

theorem countRF_append (a b : List NormalizedEngineEvent) :
    countRF (a ++ b) = countRF a + countRF b := by
  simp [countRF]

theorem pushGated_count (b : Bool) (es : List NormalizedEngineEvent)
    (e : NormalizedEngineEvent) :
    countRF (pushGated (b, es) e).2 + boolToNat b =
      countRF es + boolToNat (pushGated (b, es) e).1 := by
  by_cases hrf : isRunFinished e
  · cases b with
    | true => simp [pushGated, hrf, boolToNat]
    | false => simp [pushGated, hrf, boolToNat, countRF_append, countRF]
  · simp [pushGated, hrf, boolToNat, countRF_append, countRF]

theorem pushGated_mono (b : Bool) (es : List NormalizedEngineEvent)
    (e : NormalizedEngineEvent) (h : b = true) :
    (pushGated (b, es) e).1 = true := by
  subst h
  by_cases hrf : isRunFinished e <;> simp [pushGated, hrf]

theorem foldl_pushGated_count (events : List NormalizedEngineEvent) :
    ∀ (b : Bool) (es : List NormalizedEngineEvent),
      countRF (events.foldl pushGated (b, es)).2 + boolToNat b =
        countRF es + boolToNat (events.foldl pushGated (b, es)).1 := by
  induction events with
  | nil => intro b es; simp
  | cons e rest ih =>
      intro b es
      have h1 := pushGated_count b es e
      have h2 := ih (pushGated (b, es) e).1 (pushGated (b, es) e).2
      simp only [Prod.mk.eta] at h2
      simp only [List.foldl_cons]
      omega

/-! ## Generic engine-event parser (`createEngineEventParser`,
packages/core/src/engine-event-parser.ts) -/

structure EngineEventParserState where
  pending : Str
  lineNumber : Nat
  malformedCount : Nat
  runFinishedEmitted : Bool

def initEngineEventParser : EngineEventParserState :=
  { pending := [], lineNumber := 0, malformedCount := 0, runFinishedEmitted := false }

/-- `parseLine`, together with the `lineNumber` bump of `consumeLines`:
blank lines are ignored, JSON failures count as malformed, unrecognized
structures are discarded, recognized events pass through the
`run_finished` emit guard. -/
def engineParseLine (jp : Str → Option Json) (st : EngineEventParserState)
    (line : Str) : EngineEventParserState × List NormalizedEngineEvent :=
  let st := { st with lineNumber := st.lineNumber + 1 }
  if isBlank line then (st, [])
  else
    match jp line with
    | none => ({ st with malformedCount := st.malformedCount + 1 }, [])
    | some v =>
        let evs :=
          match parseNormalizedEngineEvent v with
          | none => []
          | some e => [e]
        let g := evs.foldl pushGated (st.runFinishedEmitted, [])
        ({ st with runFinishedEmitted := g.1 }, g.2)

def engineConsumeLines (jp : Str → Option Json) (st : EngineEventParserState)
    (lines : List Str) : EngineEventParserState × List NormalizedEngineEvent :=
  lines.foldl
    (fun acc line =>
      let r := engineParseLine jp acc.1 line
      (r.1, acc.2 ++ r.2))
    (st, [])

/-- `push(chunk)`. -/
def engineEventParserPush (jp : Str → Option Json) (st : EngineEventParserState)
    (chunk : Str) : EngineEventParserState × List NormalizedEngineEvent :=
  let d := lineDecoderPush st.pending chunk
  engineConsumeLines jp { st with pending := d.2 } d.1

/-- `finish(status = 'unknown')`. -/
def engineEventParserFinish (jp : Str → Option Json) (st : EngineEventParserState)
    (status : EngineRunStatus := EngineRunStatus.unknown) :
    EngineEventParserState × List NormalizedEngineEvent :=
  let r := engineConsumeLines jp { st with pending := [] } (lineDecoderFlush st.pending)
  if r.1.runFinishedEmitted then r
  else ({ r.1 with runFinishedEmitted := true },
    r.2 ++ [NormalizedEngineEvent.run_finished status none])

/-- A whole parser lifetime: a sequence of `push` calls followed by one
`finish`; the concatenation of every emitted event, in order. -/
def engineEventParserRun (jp : Str → Option Json) (chunks : List Str)
    (status : EngineRunStatus) : List NormalizedEngineEvent :=
  let p := chunks.foldl
    (fun acc chunk =>
      let r := engineEventParserPush jp acc.1 chunk
      (r.1, acc.2 ++ r.2))
    (initEngineEventParser, [])
  p.2 ++ (engineEventParserFinish jp p.1 status).2

/-! ## JSON serialization (`JSON.stringify` for parsed values)

Used by the Claude adapter error-message fallback and by the OpenCode
permission-config document.  Keys are emitted in insertion order, as
`JSON.stringify` does for string keys.
-/

def lbrace : Char := Char.ofNat 123

def rbrace : Char := Char.ofNat 125

def hexDigit (n : Nat) : Char :=
  if n < 10 then Char.ofNat (48 + n) else Char.ofNat (87 + n)

def jsonEscapeChar (c : Char) : Str :=
  if c = '"' then ['\\', '"']
  else if c = '\\' then ['\\', '\\']
  else if c = '\n' then ['\\', 'n']
  else if c = '\r' then ['\\', 'r']
  else if c = '\t' then ['\\', 't']
  else if c = Char.ofNat 8 then ['\\', 'b']
  else if c = Char.ofNat 12 then ['\\', 'f']
  else if c.toNat < 32 then
    ['\\', 'u', '0', '0', hexDigit (c.toNat / 16), hexDigit (c.toNat % 16)]
  else [c]

def quoteStr (s : Str) : Str :=
  '"' :: s.foldr (fun c acc => jsonEscapeChar c ++ acc) ['"']

mutual

def Json.stringify : Json → Str
  | Json.null => "null".data
  | Json.bool true => "true".data
  | Json.bool false => "false".data
  | Json.num n => (toString n).data
  | Json.str s => quoteStr s
  | Json.arr items => '[' :: (List.intercalate [','] (stringifyItems items) ++ [']'])
  | Json.obj fields =>
      lbrace :: (List.intercalate [','] (stringifyFields fields) ++ [rbrace])

def stringifyItems : List Json → List Str
  | [] => []
  | j :: rest => Json.stringify j :: stringifyItems rest

def stringifyFields : List (Str × Json) → List Str
  | [] => []
  | f :: rest => (quoteStr f.1 ++ ':' :: Json.stringify f.2) :: stringifyFields rest

end

/-! ## Claude adapter (packages/engines/src/claude-adapter.ts) -/

/-- `extractErrorMessage(parsed)`: best-available error text in priority
order `result`, `error` (string), `message`, `body`, then an `error`
object via its `message`/`type` or a truncated stringification, and as a
last resort a truncated stringification of the whole line. -/
def extractErrorMessage (parsed : Json) : Str :=
  match parsed.getNonEmptyString "result".data with
  | some s => s
  | none =>
  match parsed.getNonEmptyString "error".data with
  | some s => s
  | none =>
  match parsed.getNonEmptyString "message".data with
  | some s => s
  | none =>
  match parsed.getNonEmptyString "body".data with
  | some s => s
  | none =>
  match parsed.getField "error".data with
  | some (Json.obj ef) =>
      (match asOptStrField (Json.obj ef) "message".data with
        | some m => m
        | none =>
            match asOptStrField (Json.obj ef) "type".data with
            | some t => t
            | none => (Json.stringify (Json.obj ef)).take 500)
  | some (Json.arr xs) => (Json.stringify (Json.arr xs)).take 500
  | _ => "Claude error: ".data ++ (Json.stringify parsed).take 500

/-- `(contentBlock.name as string) ?? "unknown"`.  Non-string non-null
`name` values lie outside the engine contract and collapse to
`unknown` in this model. -/
def claudeToolName (block : Json) : Str :=
  match asOptStrField block "name".data with
  | some s => s
  | none => "unknown".data

/-- The `stream_event` branch of `translateClaudeLineToEvents`; `event`
is the line's `event` object.  Property access on non-object values
yields `undefined` in JavaScript, so every such case produces no
events. -/
def claudeStreamEvent (event : Json) (parsed : Json) : List NormalizedEngineEvent :=
  let eventType := asOptStrField event "type".data
  if eventType = some "content_block_delta".data then
    match event.getField "delta".data with
    | some (Json.obj df) =>
        if asOptStrField (Json.obj df) "type".data = some "text_delta".data then
          match (Json.obj df).getField "text".data with
          | some (Json.str text) =>
              [NormalizedEngineEvent.text_delta text none (some parsed)]
          | _ => []
        else []
    | _ => []
  else if eventType = some "content_block_start".data then
    match event.getField "content_block".data with
    | some (Json.obj cb) =>
        if asOptStrField (Json.obj cb) "type".data = some "tool_use".data then
          [NormalizedEngineEvent.tool_start (claudeToolName (Json.obj cb))
            (asOptStrField (Json.obj cb) "id".data) none (some parsed)]
        else []
    | _ => []
  else []

/-- The `assistant` branch: every `tool_use` content block becomes a
`tool_end` whose output is the block's `input`. -/
def claudeAssistantEvents (parsed : Json) : List NormalizedEngineEvent :=
  match parsed.getField "message".data with
  | some (Json.obj mf) =>
      match (Json.obj mf).getField "content".data with
      | some (Json.arr blocks) =>
          blocks.filterMap fun block =>
            match block with
            | Json.obj bf =>
                if asOptStrField (Json.obj bf) "type".data = some "tool_use".data then
                  some (NormalizedEngineEvent.tool_end (claudeToolName (Json.obj bf))
                    (asOptStrField (Json.obj bf) "id".data)
                    ((Json.obj bf).getField "input".data) (some parsed))
                else none
            | _ => none
      | _ => []
  | _ => []

/-- `translateClaudeLineToEvents(parsed)`. -/
def translateClaudeLineToEvents (parsed : Json) : List NormalizedEngineEvent :=
  match asOptStrField parsed "type".data with
  | none => []
  | some t =>
      if t = "stream_event".data then
        match parsed.getField "event".data with
        | some (Json.obj ef) => claudeStreamEvent (Json.obj ef) parsed
        | _ => []
      else if t = "assistant".data then
        claudeAssistantEvents parsed
      else if t = "result".data then
        let subtype := asOptStrField parsed "subtype".data
        let isError :=
          match parsed.getField "is_error".data with
          | some (Json.bool true) => true
          | _ => false
        let status : EngineRunStatus :=
          if subtype = some "error".data || isError then EngineRunStatus.error
          else if subtype = some "success".data then EngineRunStatus.success
          else EngineRunStatus.unknown
        (if status = EngineRunStatus.error then
          [NormalizedEngineEvent.error (extractErrorMessage parsed) none (some parsed)]
        else []) ++ [NormalizedEngineEvent.run_finished status (some parsed)]
      else if t = "error".data then
        [NormalizedEngineEvent.error (extractErrorMessage parsed) none (some parsed)]
      else []

structure ClaudeStreamJsonParserState where
  pending : Str
  latestEngineSessionId : Option Str
  runFinishedEmitted : Bool
  malformedCount : Nat

def initClaudeStreamJsonParser : ClaudeStreamJsonParserState :=
  { pending := [], latestEngineSessionId := none, runFinishedEmitted := false,
    malformedCount := 0 }

/-- `processLine` of `createClaudeStreamJsonParser`: skip blank lines,
count malformed JSON, capture `session_id` from any line carrying it,
pass already-normalized events straight through and translate Claude
lines otherwise, with the one-`run_finished` emit guard. -/
def claudeProcessLine (jp : Str → Option Json) (st : ClaudeStreamJsonParserState)
    (line : Str) : ClaudeStreamJsonParserState × List NormalizedEngineEvent :=
  if isBlank line then (st, [])
  else
    match jp line with
    | none => ({ st with malformedCount := st.malformedCount + 1 }, [])
    | some parsed =>
        let st :=
          match parsed.getNonEmptyString "session_id".data with
          | some s => { st with latestEngineSessionId := some s }
          | none => st
        let evs :=
          match parseNormalizedEngineEvent parsed with
          | some e => [e]
          | none => translateClaudeLineToEvents parsed
        let g := evs.foldl pushGated (st.runFinishedEmitted, [])
        ({ st with runFinishedEmitted := g.1 }, g.2)

def claudeConsumeLines (jp : Str → Option Json) (st : ClaudeStreamJsonParserState)
    (lines : List Str) : ClaudeStreamJsonParserState × List NormalizedEngineEvent :=
  lines.foldl
    (fun acc line =>
      let r := claudeProcessLine jp acc.1 line
      (r.1, acc.2 ++ r.2))
    (st, [])

/-- `push(chunk)` of the Claude stream-json parser. -/
def claudePush (jp : Str → Option Json) (st : ClaudeStreamJsonParserState)
    (chunk : Str) : ClaudeStreamJsonParserState × List NormalizedEngineEvent :=
  let d := lineDecoderPush st.pending chunk
  claudeConsumeLines jp { st with pending := d.2 } d.1

/-- `finish(status = 'unknown')` of the Claude stream-json parser. -/
def claudeFinish (jp : Str → Option Json) (st : ClaudeStreamJsonParserState)
    (status : EngineRunStatus := EngineRunStatus.unknown) :
    ClaudeStreamJsonParserState × List NormalizedEngineEvent :=
  let r := claudeConsumeLines jp { st with pending := [] } (lineDecoderFlush st.pending)
  if r.1.runFinishedEmitted then r
  else ({ r.1 with runFinishedEmitted := true },
    r.2 ++ [NormalizedEngineEvent.run_finished status none])

/-- A sequence of `push` calls from a given parser state, collecting
events in order. -/
def claudePushes (jp : Str → Option Json) (st : ClaudeStreamJsonParserState)
    (chunks : List Str) : ClaudeStreamJsonParserState × List NormalizedEngineEvent :=
  chunks.foldl
    (fun acc chunk =>
      let r := claudePush jp acc.1 chunk
      (r.1, acc.2 ++ r.2))
    (st, [])

/-- A whole Claude parser lifetime: pushes followed by one `finish`. -/
def claudeRun (jp : Str → Option Json) (chunks : List Str)
    (status : EngineRunStatus) : List NormalizedEngineEvent :=
  let p := claudePushes jp initClaudeStreamJsonParser chunks
  p.2 ++ (claudeFinish jp p.1 status).2

/-! ## OpenCode adapter (packages/engines/src/opencode-adapter.ts) -/

/-- One character of the `[\s.-]+` separator class of `normalizeType`. -/
def isTypeSep (c : Char) : Bool :=
  c = ' ' || c = '\t' || c = '\n' || c = '\r' ||
  c = Char.ofNat 11 || c = Char.ofNat 12 || c = '.' || c = '-'

/-- Replace each maximal run of separators with one underscore (the
global `[\s.-]+` → `_` rewrite); `prevSep` records whether the previous
character belonged to a run. -/
def collapseSeps : Str → Bool → Str
  | [], _ => []
  | c :: rest, prevSep =>
      if isTypeSep c then
        if prevSep then collapseSeps rest true else '_' :: collapseSeps rest true
      else c :: collapseSeps rest false

/-- `normalizeType(value)`: lowercase and underscore-normalize a string
type tag; non-strings normalize to the empty string. -/
def normalizeType (v : Option Json) : Str :=
  match v with
  | some (Json.str s) => collapseSeps (s.map Char.toLower) false
  | _ => []

/-- `firstString(...values)`: the first argument that is a non-empty
string. -/
def firstString : List (Option Json) → Option Str
  | [] => none
  | v :: rest =>
      match v with
      | some (Json.str s) => if s = [] then firstString rest else some s
      | _ => firstString rest

/-- Optional chaining `o?.key` over an optional JSON value. -/
def optField (o : Option Json) (key : Str) : Option Json :=
  o.bind fun j => j.getField key

/-- `isRecord(o?.key) ? o!.key : undefined` (JavaScript arrays are
records for this check, but field lookup on them yields nothing). -/
def optRecField (o : Option Json) (key : Str) : Option Json :=
  match optField o key with
  | some (Json.obj f) => some (Json.obj f)
  | some (Json.arr xs) => some (Json.arr xs)
  | _ => none

/-- The `??` null-coalescing operator on field values (`null` and
`undefined` both fall through). -/
def jsCoalesce (a b : Option Json) : Option Json :=
  match a with
  | some Json.null => b
  | some v => some v
  | none => b

/-- `extractToolName(event)`: `event.tool.name` when `event.tool` is a
record, else the first of `toolName`, `name`, `tool_name`. -/
def extractToolName (e : Json) : Option Str :=
  match e.getField "tool".data with
  | some (Json.obj tf) => firstString [(Json.obj tf).getField "name".data]
  | some (Json.arr _) => none
  | _ =>
      firstString [e.getField "toolName".data, e.getField "name".data,
        e.getField "tool_name".data]

/-- `mapOpenCodeEvent(rawEvent)`: already-normalized events pass
through; otherwise the permissive type-name mapping of the OpenCode
JSON-lines stream.  Unknown discriminators yield `none`. -/
def mapOpenCodeEvent (rawEvent : Json) : Option NormalizedEngineEvent :=
  match parseNormalizedEngineEvent rawEvent with
  | some normalized => some normalized
  | none =>
  match rawEvent with
  | Json.obj _ =>
      let eventType := normalizeType (rawEvent.getField "type".data)
      if eventType = "started".data || eventType = "run_started".data ||
          eventType = "run_start".data then
        some (NormalizedEngineEvent.run_started
          (firstString [rawEvent.getField "runId".data, rawEvent.getField "run_id".data,
            rawEvent.getField "id".data])
          (firstString [rawEvent.getField "timestamp".data, rawEvent.getField "time".data])
          (some rawEvent))
      else if eventType = "text".data || eventType = "text_delta".data ||
          eventType = "message_delta".data || eventType = "output_text_delta".data then
        let part := asOptRecField rawEvent "part".data
        match firstString [optField part "text".data, rawEvent.getField "text".data,
            rawEvent.getField "delta".data, rawEvent.getField "content".data,
            rawEvent.getField "message".data] with
        | none => none
        | some text =>
            some (NormalizedEngineEvent.text_delta text
              (firstString [rawEvent.getField "channel".data]) (some rawEvent))
      else if eventType = "tool_use".data then
        let part := asOptRecField rawEvent "part".data
        let toolName :=
          match firstString [optField part "tool".data] with
          | some s => some s
          | none => extractToolName rawEvent
        match toolName with
        | none => none
        | some toolName =>
            let state := optRecField part "state".data
            let status := firstString [optField state "status".data]
            let callId := firstString [optField part "callID".data,
              rawEvent.getField "callId".data, rawEvent.getField "call_id".data]
            if status = some "pending".data || status = none then
              some (NormalizedEngineEvent.tool_start toolName callId
                (optField state "input".data) (some rawEvent))
            else
              some (NormalizedEngineEvent.tool_end toolName callId
                (jsCoalesce (optField state "output".data) (optField state "error".data))
                (some rawEvent))
      else if eventType = "tool_start".data || eventType = "tool_started".data ||
          eventType = "tool_call_start".data || eventType = "tool_call_started".data then
        match extractToolName rawEvent with
        | none => none
        | some toolName =>
            some (NormalizedEngineEvent.tool_start toolName
              (firstString [rawEvent.getField "callId".data, rawEvent.getField "call_id".data,
                rawEvent.getField "toolCallId".data, rawEvent.getField "id".data])
              (jsCoalesce (rawEvent.getField "input".data)
                (rawEvent.getField "arguments".data))
              (some rawEvent))
      else if eventType = "tool_end".data || eventType = "tool_finished".data ||
          eventType = "tool_call_end".data || eventType = "tool_call_finished".data then
        match extractToolName rawEvent with
        | none => none
        | some toolName =>
            some (NormalizedEngineEvent.tool_end toolName
              (firstString [rawEvent.getField "callId".data, rawEvent.getField "call_id".data,
                rawEvent.getField "toolCallId".data, rawEvent.getField "id".data])
              (jsCoalesce (rawEvent.getField "output".data)
                (rawEvent.getField "result".data))
              (some rawEvent))
      else if eventType = "step_start".data || eventType = "step_finish".data then
        none
      else if eventType = "error".data || eventType = "run_error".data then
        match firstString [rawEvent.getField "message".data,
            rawEvent.getField "error".data] with
        | none => none
        | some message =>
            some (NormalizedEngineEvent.error message
              (firstString [rawEvent.getField "code".data]) (some rawEvent))
      else if eventType = "finished".data || eventType = "completed".data ||
          eventType = "run_finished".data || eventType = "run_end".data then
        some (NormalizedEngineEvent.run_finished (asRunStatusField rawEvent)
          (some rawEvent))
      else if eventType = "file_uploaded".data || eventType = "upload_completed".data then
        some (NormalizedEngineEvent.file_uploaded
          (firstString [rawEvent.getField "filePath".data, rawEvent.getField "path".data])
          (firstString [rawEvent.getField "fileName".data, rawEvent.getField "name".data])
          (asOptNumField rawEvent "sizeBytes".data)
          (firstString [rawEvent.getField "url".data]) (some rawEvent))
      else if eventType = "file_downloaded".data ||
          eventType = "download_completed".data then
        some (NormalizedEngineEvent.file_downloaded
          (firstString [rawEvent.getField "filePath".data, rawEvent.getField "path".data])
          (firstString [rawEvent.getField "fileName".data, rawEvent.getField "name".data])
          (asOptNumField rawEvent "sizeBytes".data)
          (firstString [rawEvent.getField "url".data]) (some rawEvent))
      else none
  | _ => none

/-- `captureSessionId(rawEvent)`: the first non-empty string among
`sessionID` and `sessionId` of a record line. -/
def captureSessionId (rawEvent : Json) : Option Str :=
  match rawEvent with
  | Json.obj _ =>
      firstString [rawEvent.getField "sessionID".data, rawEvent.getField "sessionId".data]
  | _ => none

structure OpenCodeJsonlParserState where
  pending : Str
  latestEngineSessionId : Option Str
  malformedCount : Nat
  runFinishedEmitted : Bool

def initOpenCodeJsonlParser : OpenCodeJsonlParserState :=
  { pending := [], latestEngineSessionId := none, malformedCount := 0,
    runFinishedEmitted := false }

/-- One line of `parseLines` in `createOpenCodeJsonlParser`. -/
def openCodeProcessLine (jp : Str → Option Json) (st : OpenCodeJsonlParserState)
    (line : Str) : OpenCodeJsonlParserState × List NormalizedEngineEvent :=
  if isBlank line then (st, [])
  else
    match jp line with
    | none => ({ st with malformedCount := st.malformedCount + 1 }, [])
    | some parsed =>
        let st :=
          match captureSessionId parsed with
          | some s => { st with latestEngineSessionId := some s }
          | none => st
        let evs :=
          match mapOpenCodeEvent parsed with
          | none => []
          | some e => [e]
        let g := evs.foldl pushGated (st.runFinishedEmitted, [])
        ({ st with runFinishedEmitted := g.1 }, g.2)

def openCodeConsumeLines (jp : Str → Option Json) (st : OpenCodeJsonlParserState)
    (lines : List Str) : OpenCodeJsonlParserState × List NormalizedEngineEvent :=
  lines.foldl
    (fun acc line =>
      let r := openCodeProcessLine jp acc.1 line
      (r.1, acc.2 ++ r.2))
    (st, [])

/-- `push(chunk)` of the OpenCode jsonl parser. -/
def openCodePush (jp : Str → Option Json) (st : OpenCodeJsonlParserState)
    (chunk : Str) : OpenCodeJsonlParserState × List NormalizedEngineEvent :=
  let d := lineDecoderPush st.pending chunk
  openCodeConsumeLines jp { st with pending := d.2 } d.1

/-- `finish(status = 'unknown')` of the OpenCode jsonl parser. -/
def openCodeFinish (jp : Str → Option Json) (st : OpenCodeJsonlParserState)
    (status : EngineRunStatus := EngineRunStatus.unknown) :
    OpenCodeJsonlParserState × List NormalizedEngineEvent :=
  let r := openCodeConsumeLines jp { st with pending := [] } (lineDecoderFlush st.pending)
  if r.1.runFinishedEmitted then r
  else ({ r.1 with runFinishedEmitted := true },
    r.2 ++ [NormalizedEngineEvent.run_finished status none])

def openCodePushes (jp : Str → Option Json) (st : OpenCodeJsonlParserState)
    (chunks : List Str) : OpenCodeJsonlParserState × List NormalizedEngineEvent :=
  chunks.foldl
    (fun acc chunk =>
      let r := openCodePush jp acc.1 chunk
      (r.1, acc.2 ++ r.2))
    (st, [])

/-- A whole OpenCode parser lifetime: pushes followed by one `finish`. -/
def openCodeRun (jp : Str → Option Json) (chunks : List Str)
    (status : EngineRunStatus) : List NormalizedEngineEvent :=
  let p := openCodePushes jp initOpenCodeJsonlParser chunks
  p.2 ++ (openCodeFinish jp p.1 status).2

/-! ## OpenCode permission policy (`createOpenCodePermissionConfigContent`) -/

inductive PermissionLeaf where
  | allow : PermissionLeaf
  | deny : PermissionLeaf
deriving DecidableEq

inductive OpenCodePermissionValue where
  | leaf (v : PermissionLeaf) : OpenCodePermissionValue
  | table (entries : List (Str × PermissionLeaf)) : OpenCodePermissionValue
deriving DecidableEq

inductive OpenCodePermissionPolicy where
  | safeMode : OpenCodePermissionPolicy
  | unsafeMode : OpenCodePermissionPolicy
deriving DecidableEq

/-- `OPENCODE_UNSAFE_BASH_POLICY`. -/
def opencodeUnsafeBashPolicy : List (Str × PermissionLeaf) :=
  [("*".data, PermissionLeaf.deny),
   ("git *".data, PermissionLeaf.allow),
   ("pnpm *".data, PermissionLeaf.allow),
   ("npm *".data, PermissionLeaf.allow),
   ("cargo *".data, PermissionLeaf.allow),
   ("python *".data, PermissionLeaf.allow),
   ("node *".data, PermissionLeaf.allow),
   ("rm *".data, PermissionLeaf.deny),
   ("sudo *".data, PermissionLeaf.deny),
   ("dd *".data, PermissionLeaf.deny),
   ("mkfs *".data, PermissionLeaf.deny)]

/-- The `permission` record assembled by
`createOpenCodePermissionConfigContent`, in insertion order. -/
def openCodePermissionRecord (policy : OpenCodePermissionPolicy) :
    List (Str × OpenCodePermissionValue) :=
  let base :=
    [("*".data, OpenCodePermissionValue.leaf PermissionLeaf.deny),
     ("read".data, OpenCodePermissionValue.leaf PermissionLeaf.allow),
     ("glob".data, OpenCodePermissionValue.leaf PermissionLeaf.allow),
     ("grep".data, OpenCodePermissionValue.leaf PermissionLeaf.allow),
     ("list".data, OpenCodePermissionValue.leaf PermissionLeaf.allow),
     ("external_directory".data, OpenCodePermissionValue.leaf PermissionLeaf.deny)]
  if policy = OpenCodePermissionPolicy.unsafeMode then
    base ++
      [("edit".data, OpenCodePermissionValue.table
          [("*".data, PermissionLeaf.allow)]),
       ("bash".data, OpenCodePermissionValue.table opencodeUnsafeBashPolicy)]
  else base

def PermissionLeaf.toJson : PermissionLeaf → Json
  | PermissionLeaf.allow => Json.str "allow".data
  | PermissionLeaf.deny => Json.str "deny".data

def OpenCodePermissionValue.toJson : OpenCodePermissionValue → Json
  | OpenCodePermissionValue.leaf v => v.toJson
  | OpenCodePermissionValue.table entries =>
      Json.obj (entries.map fun e => (e.1, e.2.toJson))

/-- `createOpenCodePermissionConfigContent(policy)`:
`JSON.stringify({ permission: ... })`. -/
def createOpenCodePermissionConfigContent (policy : OpenCodePermissionPolicy) : Str :=
  Json.stringify (Json.obj
    [("permission".data,
      Json.obj ((openCodePermissionRecord policy).map fun e => (e.1, e.2.toJson)))])

/-- Association-list lookup on the assembled permission record. -/
def permissionLookup (policy : OpenCodePermissionPolicy) (key : Str) :
    Option OpenCodePermissionValue :=
  match (openCodePermissionRecord policy).find? (fun e => e.1 = key) with
  | some e => some e.2
  | none => none

/-! ## Shared accumulation lemmas

Every parser loop has the shape `foldl` with event accumulation; the
lemmas below factor the bookkeeping.
-/

def accumRun {σ α ε : Type} (step : σ → α → σ × List ε) (st : σ) (xs : List α) :
    σ × List ε :=
  xs.foldl
    (fun acc x =>
      let r := step acc.1 x
      (r.1, acc.2 ++ r.2))
    (st, [])

theorem accumRun_shift {σ α ε : Type} (step : σ → α → σ × List ε) (xs : List α) :
    ∀ (st : σ) (es : List ε),
      xs.foldl
        (fun acc x =>
          let r := step acc.1 x
          (r.1, acc.2 ++ r.2))
        (st, es) =
      ((accumRun step st xs).1, es ++ (accumRun step st xs).2) := by
  induction xs with
  | nil => intro st es; simp [accumRun]
  | cons x xs ih =>
      intro st es
      simp only [accumRun, List.foldl_cons] at ih ⊢
      rw [ih, ih (step st x).1 ([] ++ (step st x).2)]
      simp [List.append_assoc]

theorem accumRun_cons {σ α ε : Type} (step : σ → α → σ × List ε) (st : σ)
    (x : α) (xs : List α) :
    accumRun step st (x :: xs) =
      ((accumRun step (step st x).1 xs).1,
        (step st x).2 ++ (accumRun step (step st x).1 xs).2) := by
  simp only [accumRun, List.foldl_cons]
  rw [accumRun_shift step xs (step st x).1 ([] ++ (step st x).2)]
  simp [accumRun]

theorem accumRun_invariant {σ α : Type} (step : σ → α → σ × List NormalizedEngineEvent)
    (mu : σ → Nat)
    (hstep : ∀ st x, countRF (step st x).2 + mu st = mu (step st x).1)
    (xs : List α) :
    ∀ st : σ, countRF (accumRun step st xs).2 + mu st = mu (accumRun step st xs).1 := by
  induction xs with
  | nil => intro st; simp [accumRun, countRF]
  | cons x xs ih =>
      intro st
      rw [accumRun_cons]
      have h1 := hstep st x
      have h2 := ih (step st x).1
      simp only [countRF_append]
      omega

/-- The latest capture over a list of lines, starting from `acc`. -/
def latestCapture (f : Str → Option Str) (acc : Option Str) (lines : List Str) :
    Option Str :=
  lines.foldl
    (fun a l =>
      match f l with
      | some s => some s
      | none => a)
    acc

theorem latestCapture_append (f : Str → Option Str) (acc : Option Str)
    (a b : List Str) :
    latestCapture f acc (a ++ b) = latestCapture f (latestCapture f acc a) b := by
  simp [latestCapture, List.foldl_append]

/-- The per-push line production of a fresh decoder sequence: final
pending buffer and all lines emitted by the pushes (no flush). -/
def lineDecoderPushes (p : Str) (chunks : List Str) : Str × List Str :=
  accumRun
    (fun pend c => ((lineDecoderPush pend c).2, (lineDecoderPush pend c).1))
    p chunks

/-! ## C4: exactly one `run_finished` per parser lifetime -/

theorem engineParseLine_count (jp : Str → Option Json) (st : EngineEventParserState)
    (line : Str) :
    countRF (engineParseLine jp st line).2 + boolToNat st.runFinishedEmitted =
      boolToNat (engineParseLine jp st line).1.runFinishedEmitted := by
  unfold engineParseLine
  cases hb : isBlank line
  · simp only [Bool.false_eq_true, if_false]
    split
    · simp [countRF, boolToNat]
    · rename_i v _
      have := foldl_pushGated_count
        (match parseNormalizedEngineEvent v with
          | none => []
          | some e => [e])
        st.runFinishedEmitted []
      simpa [countRF] using this
  · simp [countRF, boolToNat]

theorem claudeProcessLine_count (jp : Str → Option Json)
    (st : ClaudeStreamJsonParserState) (line : Str) :
    countRF (claudeProcessLine jp st line).2 + boolToNat st.runFinishedEmitted =
      boolToNat (claudeProcessLine jp st line).1.runFinishedEmitted := by
  unfold claudeProcessLine
  cases hb : isBlank line
  · simp only [Bool.false_eq_true, if_false]
    split
    · simp [countRF, boolToNat]
    · rename_i parsed _
      rcases hs : parsed.getNonEmptyString "session_id".data with _ | s <;>
        simp only [hs] <;>
        simpa [countRF] using foldl_pushGated_count
          (match parseNormalizedEngineEvent parsed with
            | some e => [e]
            | none => translateClaudeLineToEvents parsed)
          st.runFinishedEmitted []
  · simp [countRF, boolToNat]

theorem openCodeProcessLine_count (jp : Str → Option Json)
    (st : OpenCodeJsonlParserState) (line : Str) :
    countRF (openCodeProcessLine jp st line).2 + boolToNat st.runFinishedEmitted =
      boolToNat (openCodeProcessLine jp st line).1.runFinishedEmitted := by
  unfold openCodeProcessLine
  cases hb : isBlank line
  · simp only [Bool.false_eq_true, if_false]
    split
    · simp [countRF, boolToNat]
    · rename_i parsed _
      rcases hs : captureSessionId parsed with _ | s <;>
        simp only [hs] <;>
        simpa [countRF] using foldl_pushGated_count
          (match mapOpenCodeEvent parsed with
            | none => []
            | some e => [e])
          st.runFinishedEmitted []
  · simp [countRF, boolToNat]

theorem engineConsumeLines_count (jp : Str → Option Json) (lines : List Str)
    (st : EngineEventParserState) :
    countRF (engineConsumeLines jp st lines).2 + boolToNat st.runFinishedEmitted =
      boolToNat (engineConsumeLines jp st lines).1.runFinishedEmitted :=
  accumRun_invariant (engineParseLine jp)
    (fun s => boolToNat s.runFinishedEmitted)
    (fun s l => engineParseLine_count jp s l) lines st

theorem claudeConsumeLines_count (jp : Str → Option Json) (lines : List Str)
    (st : ClaudeStreamJsonParserState) :
    countRF (claudeConsumeLines jp st lines).2 + boolToNat st.runFinishedEmitted =
      boolToNat (claudeConsumeLines jp st lines).1.runFinishedEmitted :=
  accumRun_invariant (claudeProcessLine jp)
    (fun s => boolToNat s.runFinishedEmitted)
    (fun s l => claudeProcessLine_count jp s l) lines st

theorem openCodeConsumeLines_count (jp : Str → Option Json) (lines : List Str)
    (st : OpenCodeJsonlParserState) :
    countRF (openCodeConsumeLines jp st lines).2 + boolToNat st.runFinishedEmitted =
      boolToNat (openCodeConsumeLines jp st lines).1.runFinishedEmitted :=
  accumRun_invariant (openCodeProcessLine jp)
    (fun s => boolToNat s.runFinishedEmitted)
    (fun s l => openCodeProcessLine_count jp s l) lines st

theorem engineEventParserPush_count (jp : Str → Option Json)
    (st : EngineEventParserState) (chunk : Str) :
    countRF (engineEventParserPush jp st chunk).2 + boolToNat st.runFinishedEmitted =
      boolToNat (engineEventParserPush jp st chunk).1.runFinishedEmitted := by
  unfold engineEventParserPush
  exact engineConsumeLines_count jp _ _

theorem claudePush_count (jp : Str → Option Json)
    (st : ClaudeStreamJsonParserState) (chunk : Str) :
    countRF (claudePush jp st chunk).2 + boolToNat st.runFinishedEmitted =
      boolToNat (claudePush jp st chunk).1.runFinishedEmitted := by
  unfold claudePush
  exact claudeConsumeLines_count jp _ _

theorem openCodePush_count (jp : Str → Option Json)
    (st : OpenCodeJsonlParserState) (chunk : Str) :
    countRF (openCodePush jp st chunk).2 + boolToNat st.runFinishedEmitted =
      boolToNat (openCodePush jp st chunk).1.runFinishedEmitted := by
  unfold openCodePush
  exact openCodeConsumeLines_count jp _ _

theorem engineEventParserFinish_count (jp : Str → Option Json)
    (st : EngineEventParserState) (status : EngineRunStatus) :
    countRF (engineEventParserFinish jp st status).2 +
      boolToNat st.runFinishedEmitted = 1 := by
  unfold engineEventParserFinish
  have h : countRF (engineConsumeLines jp { st with pending := [] }
        (lineDecoderFlush st.pending)).2 + boolToNat st.runFinishedEmitted =
      boolToNat (engineConsumeLines jp { st with pending := [] }
        (lineDecoderFlush st.pending)).1.runFinishedEmitted :=
    engineConsumeLines_count jp (lineDecoderFlush st.pending) { st with pending := [] }
  cases hf : (engineConsumeLines jp { st with pending := [] }
      (lineDecoderFlush st.pending)).1.runFinishedEmitted
  · rw [hf] at h
    simp only [hf, Bool.false_eq_true, if_false, countRF_append]
    have h1 : countRF [NormalizedEngineEvent.run_finished status none] = 1 := rfl
    rw [h1]
    simp only [boolToNat, Bool.false_eq_true, eq_self_iff_true, if_false,
      if_true] at h ⊢
    omega
  · rw [hf] at h
    simp only [hf, if_true]
    simp only [boolToNat, Bool.false_eq_true, eq_self_iff_true, if_false,
      if_true] at h ⊢
    omega

theorem claudeFinish_count (jp : Str → Option Json)
    (st : ClaudeStreamJsonParserState) (status : EngineRunStatus) :
    countRF (claudeFinish jp st status).2 + boolToNat st.runFinishedEmitted = 1 := by
  unfold claudeFinish
  have h : countRF (claudeConsumeLines jp { st with pending := [] }
        (lineDecoderFlush st.pending)).2 + boolToNat st.runFinishedEmitted =
      boolToNat (claudeConsumeLines jp { st with pending := [] }
        (lineDecoderFlush st.pending)).1.runFinishedEmitted :=
    claudeConsumeLines_count jp (lineDecoderFlush st.pending) { st with pending := [] }
  cases hf : (claudeConsumeLines jp { st with pending := [] }
      (lineDecoderFlush st.pending)).1.runFinishedEmitted
  · rw [hf] at h
    simp only [hf, Bool.false_eq_true, if_false, countRF_append]
    have h1 : countRF [NormalizedEngineEvent.run_finished status none] = 1 := rfl
    rw [h1]
    simp only [boolToNat, Bool.false_eq_true, eq_self_iff_true, if_false,
      if_true] at h ⊢
    omega
  · rw [hf] at h
    simp only [hf, if_true]
    simp only [boolToNat, Bool.false_eq_true, eq_self_iff_true, if_false,
      if_true] at h ⊢
    omega

theorem openCodeFinish_count (jp : Str → Option Json)
    (st : OpenCodeJsonlParserState) (status : EngineRunStatus) :
    countRF (openCodeFinish jp st status).2 + boolToNat st.runFinishedEmitted = 1 := by
  unfold openCodeFinish
  have h : countRF (openCodeConsumeLines jp { st with pending := [] }
        (lineDecoderFlush st.pending)).2 + boolToNat st.runFinishedEmitted =
      boolToNat (openCodeConsumeLines jp { st with pending := [] }
        (lineDecoderFlush st.pending)).1.runFinishedEmitted :=
    openCodeConsumeLines_count jp (lineDecoderFlush st.pending) { st with pending := [] }
  cases hf : (openCodeConsumeLines jp { st with pending := [] }
      (lineDecoderFlush st.pending)).1.runFinishedEmitted
  · rw [hf] at h
    simp only [hf, Bool.false_eq_true, if_false, countRF_append]
    have h1 : countRF [NormalizedEngineEvent.run_finished status none] = 1 := rfl
    rw [h1]
    simp only [boolToNat, Bool.false_eq_true, eq_self_iff_true, if_false,
      if_true] at h ⊢
    omega
  · rw [hf] at h
    simp only [hf, if_true]
    simp only [boolToNat, Bool.false_eq_true, eq_self_iff_true, if_false,
      if_true] at h ⊢
    omega

theorem engineEventParserRun_count (jp : Str → Option Json) (chunks : List Str)
    (status : EngineRunStatus) :
    countRF (engineEventParserRun jp chunks status) = 1 := by
  have hp := accumRun_invariant (engineEventParserPush jp)
    (fun s => boolToNat s.runFinishedEmitted)
    (fun s c => engineEventParserPush_count jp s c) chunks initEngineEventParser
  have hf := engineEventParserFinish_count jp
    (accumRun (engineEventParserPush jp) initEngineEventParser chunks).1 status
  show countRF ((accumRun (engineEventParserPush jp) initEngineEventParser chunks).2 ++
    (engineEventParserFinish jp
      (accumRun (engineEventParserPush jp) initEngineEventParser chunks).1 status).2) = 1
  rw [countRF_append]
  have hinit : boolToNat initEngineEventParser.runFinishedEmitted = 0 := rfl
  rw [hinit] at hp
  simp only [boolToNat] at hp hf
  omega

theorem claudeRun_count (jp : Str → Option Json) (chunks : List Str)
    (status : EngineRunStatus) :
    countRF (claudeRun jp chunks status) = 1 := by
  have hp := accumRun_invariant (claudePush jp)
    (fun s => boolToNat s.runFinishedEmitted)
    (fun s c => claudePush_count jp s c) chunks initClaudeStreamJsonParser
  have hf := claudeFinish_count jp
    (accumRun (claudePush jp) initClaudeStreamJsonParser chunks).1 status
  show countRF ((accumRun (claudePush jp) initClaudeStreamJsonParser chunks).2 ++
    (claudeFinish jp
      (accumRun (claudePush jp) initClaudeStreamJsonParser chunks).1 status).2) = 1
  rw [countRF_append]
  have hinit : boolToNat initClaudeStreamJsonParser.runFinishedEmitted = 0 := rfl
  rw [hinit] at hp
  simp only [boolToNat] at hp hf
  omega

theorem openCodeRun_count (jp : Str → Option Json) (chunks : List Str)
    (status : EngineRunStatus) :
    countRF (openCodeRun jp chunks status) = 1 := by
  have hp := accumRun_invariant (openCodePush jp)
    (fun s => boolToNat s.runFinishedEmitted)
    (fun s c => openCodePush_count jp s c) chunks initOpenCodeJsonlParser
  have hf := openCodeFinish_count jp
    (accumRun (openCodePush jp) initOpenCodeJsonlParser chunks).1 status
  show countRF ((accumRun (openCodePush jp) initOpenCodeJsonlParser chunks).2 ++
    (openCodeFinish jp
      (accumRun (openCodePush jp) initOpenCodeJsonlParser chunks).1 status).2) = 1
  rw [countRF_append]
  have hinit : boolToNat initOpenCodeJsonlParser.runFinishedEmitted = 0 := rfl
  rw [hinit] at hp
  simp only [boolToNat] at hp hf
  omega

/-- C4: Exactly one `run_finished` per parser lifetime.  For each of the
three parsers (generic engine-event parser, Claude stream-json parser,
OpenCode jsonl parser), over any JSON-parse oracle, any sequence of
`push` calls followed by one `finish(status)`, the concatenation of all
emitted events contains exactly one `run_finished` event: inputs after
the first are dropped by the emit guard, and when no input produced one,
`finish` appends a `run_finished` carrying the supplied terminal status
(the last three equations show the appended event for an empty input
stream; the `status` argument defaults to `unknown` in each `finish`). -/
theorem parsersEmitExactlyOneRunFinished (jp : Str → Option Json)
    (chunks : List Str) (status : EngineRunStatus) :
    countRF (engineEventParserRun jp chunks status) = 1 ∧
    countRF (claudeRun jp chunks status) = 1 ∧
    countRF (openCodeRun jp chunks status) = 1 ∧
    engineEventParserRun jp [] status =
      [NormalizedEngineEvent.run_finished status none] ∧
    claudeRun jp [] status = [NormalizedEngineEvent.run_finished status none] ∧
    openCodeRun jp [] status = [NormalizedEngineEvent.run_finished status none] := by
  refine ⟨engineEventParserRun_count jp chunks status,
    claudeRun_count jp chunks status, openCodeRun_count jp chunks status, ?_, ?_, ?_⟩ <;>
    rfl

/-! ## C6: engine session-id capture -/

/-- What one processed line contributes to the Claude parser's captured
session id: the `session_id` field of a parseable non-blank line. -/
def claudeCaptureOfLine (jp : Str → Option Json) (line : Str) : Option Str :=
  if isBlank line then none
  else
    match jp line with
    | none => none
    | some parsed => parsed.getNonEmptyString "session_id".data

/-- What one processed line contributes to the OpenCode parser's
captured session id: `captureSessionId` of a parseable non-blank line
(`sessionID` preferred over `sessionId`). -/
def openCodeCaptureOfLine (jp : Str → Option Json) (line : Str) : Option Str :=
  if isBlank line then none
  else
    match jp line with
    | none => none
    | some parsed => captureSessionId parsed

theorem claudeProcessLine_session (jp : Str → Option Json)
    (st : ClaudeStreamJsonParserState) (line : Str) :
    (claudeProcessLine jp st line).1.latestEngineSessionId =
      (match claudeCaptureOfLine jp line with
        | some s => some s
        | none => st.latestEngineSessionId) ∧
    (claudeProcessLine jp st line).1.pending = st.pending := by
  unfold claudeProcessLine claudeCaptureOfLine
  cases hb : isBlank line
  · simp only [Bool.false_eq_true, if_false]
    split
    · simp
    · rename_i parsed _
      rcases hs : parsed.getNonEmptyString "session_id".data with _ | s <;>
        simp [hs]
  · simp

theorem openCodeProcessLine_session (jp : Str → Option Json)
    (st : OpenCodeJsonlParserState) (line : Str) :
    (openCodeProcessLine jp st line).1.latestEngineSessionId =
      (match openCodeCaptureOfLine jp line with
        | some s => some s
        | none => st.latestEngineSessionId) ∧
    (openCodeProcessLine jp st line).1.pending = st.pending := by
  unfold openCodeProcessLine openCodeCaptureOfLine
  cases hb : isBlank line
  · simp only [Bool.false_eq_true, if_false]
    split
    · simp
    · rename_i parsed _
      rcases hs : captureSessionId parsed with _ | s <;> simp [hs]
  · simp

theorem claudeConsumeLines_session (jp : Str → Option Json) (lines : List Str) :
    ∀ st : ClaudeStreamJsonParserState,
      (claudeConsumeLines jp st lines).1.latestEngineSessionId =
        latestCapture (claudeCaptureOfLine jp) st.latestEngineSessionId lines ∧
      (claudeConsumeLines jp st lines).1.pending = st.pending := by
  induction lines with
  | nil => intro st; exact ⟨rfl, rfl⟩
  | cons l ls ih =>
      intro st
      have hcons :
          claudeConsumeLines jp st (l :: ls) =
            ((claudeConsumeLines jp (claudeProcessLine jp st l).1 ls).1,
              (claudeProcessLine jp st l).2 ++
                (claudeConsumeLines jp (claudeProcessLine jp st l).1 ls).2) :=
        accumRun_cons (claudeProcessLine jp) st l ls
      rw [hcons]
      have hline := claudeProcessLine_session jp st l
      have hrec := ih (claudeProcessLine jp st l).1
      refine ⟨?_, ?_⟩
      · rw [hrec.1, hline.1]
        rfl
      · rw [hrec.2, hline.2]

theorem openCodeConsumeLines_session (jp : Str → Option Json) (lines : List Str) :
    ∀ st : OpenCodeJsonlParserState,
      (openCodeConsumeLines jp st lines).1.latestEngineSessionId =
        latestCapture (openCodeCaptureOfLine jp) st.latestEngineSessionId lines ∧
      (openCodeConsumeLines jp st lines).1.pending = st.pending := by
  induction lines with
  | nil => intro st; exact ⟨rfl, rfl⟩
  | cons l ls ih =>
      intro st
      have hcons :
          openCodeConsumeLines jp st (l :: ls) =
            ((openCodeConsumeLines jp (openCodeProcessLine jp st l).1 ls).1,
              (openCodeProcessLine jp st l).2 ++
                (openCodeConsumeLines jp (openCodeProcessLine jp st l).1 ls).2) :=
        accumRun_cons (openCodeProcessLine jp) st l ls
      rw [hcons]
      have hline := openCodeProcessLine_session jp st l
      have hrec := ih (openCodeProcessLine jp st l).1
      refine ⟨?_, ?_⟩
      · rw [hrec.1, hline.1]
        rfl
      · rw [hrec.2, hline.2]

theorem claudePushes_session (jp : Str → Option Json) (chunks : List Str) :
    ∀ st : ClaudeStreamJsonParserState,
      (claudePushes jp st chunks).1.latestEngineSessionId =
        latestCapture (claudeCaptureOfLine jp) st.latestEngineSessionId
          (lineDecoderPushes st.pending chunks).2 ∧
      (claudePushes jp st chunks).1.pending =
        (lineDecoderPushes st.pending chunks).1 := by
  induction chunks with
  | nil => intro st; exact ⟨rfl, rfl⟩
  | cons c cs ih =>
      intro st
      have hcons :
          claudePushes jp st (c :: cs) =
            ((claudePushes jp (claudePush jp st c).1 cs).1,
              (claudePush jp st c).2 ++ (claudePushes jp (claudePush jp st c).1 cs).2) :=
        accumRun_cons (claudePush jp) st c cs
      have hdec :
          lineDecoderPushes st.pending (c :: cs) =
            ((lineDecoderPushes (lineDecoderPush st.pending c).2 cs).1,
              (lineDecoderPush st.pending c).1 ++
                (lineDecoderPushes (lineDecoderPush st.pending c).2 cs).2) :=
        accumRun_cons _ st.pending c cs
      have hpush :
          (claudePush jp st c).1.latestEngineSessionId =
            latestCapture (claudeCaptureOfLine jp) st.latestEngineSessionId
              (lineDecoderPush st.pending c).1 ∧
          (claudePush jp st c).1.pending = (lineDecoderPush st.pending c).2 := by
        unfold claudePush
        have h := claudeConsumeLines_session jp (lineDecoderPush st.pending c).1
          { st with pending := (lineDecoderPush st.pending c).2 }
        exact ⟨h.1, h.2⟩
      have hrec := ih (claudePush jp st c).1
      rw [hcons, hdec]
      refine ⟨?_, ?_⟩
      · rw [hrec.1, hpush.1, hpush.2, latestCapture_append]
      · rw [hrec.2, hpush.2]

theorem openCodePushes_session (jp : Str → Option Json) (chunks : List Str) :
    ∀ st : OpenCodeJsonlParserState,
      (openCodePushes jp st chunks).1.latestEngineSessionId =
        latestCapture (openCodeCaptureOfLine jp) st.latestEngineSessionId
          (lineDecoderPushes st.pending chunks).2 ∧
      (openCodePushes jp st chunks).1.pending =
        (lineDecoderPushes st.pending chunks).1 := by
  induction chunks with
  | nil => intro st; exact ⟨rfl, rfl⟩
  | cons c cs ih =>
      intro st
      have hcons :
          openCodePushes jp st (c :: cs) =
            ((openCodePushes jp (openCodePush jp st c).1 cs).1,
              (openCodePush jp st c).2 ++
                (openCodePushes jp (openCodePush jp st c).1 cs).2) :=
        accumRun_cons (openCodePush jp) st c cs
      have hdec :
          lineDecoderPushes st.pending (c :: cs) =
            ((lineDecoderPushes (lineDecoderPush st.pending c).2 cs).1,
              (lineDecoderPush st.pending c).1 ++
                (lineDecoderPushes (lineDecoderPush st.pending c).2 cs).2) :=
        accumRun_cons _ st.pending c cs
      have hpush :
          (openCodePush jp st c).1.latestEngineSessionId =
            latestCapture (openCodeCaptureOfLine jp) st.latestEngineSessionId
              (lineDecoderPush st.pending c).1 ∧
          (openCodePush jp st c).1.pending = (lineDecoderPush st.pending c).2 := by
        unfold openCodePush
        have h := openCodeConsumeLines_session jp (lineDecoderPush st.pending c).1
          { st with pending := (lineDecoderPush st.pending c).2 }
        exact ⟨h.1, h.2⟩
      have hrec := ih (openCodePush jp st c).1
      rw [hcons, hdec]
      refine ⟨?_, ?_⟩
      · rw [hrec.1, hpush.1, hpush.2, latestCapture_append]
      · rw [hrec.2, hpush.2]

/-- C6 (amended): engine session-id capture.  After any sequence of
pushed chunks, each engine parser's `engineSessionId()` equals the
capture observed most recently across the lines framed so far — but the
two parsers read different field names: the Claude stream-json parser
captures only the `session_id` field (`claudeCaptureOfLine`), while the
OpenCode jsonl parser captures `sessionID` or `sessionId`
(`openCodeCaptureOfLine`); neither accepts all three names. -/
theorem engineSessionIdCapture (jp : Str → Option Json) (chunks : List Str) :
    (claudePushes jp initClaudeStreamJsonParser chunks).1.latestEngineSessionId =
      latestCapture (claudeCaptureOfLine jp) none (lineDecoderPushes [] chunks).2 ∧
    (openCodePushes jp initOpenCodeJsonlParser chunks).1.latestEngineSessionId =
      latestCapture (openCodeCaptureOfLine jp) none (lineDecoderPushes [] chunks).2 :=
  ⟨(claudePushes_session jp chunks initClaudeStreamJsonParser).1,
    (openCodePushes_session jp chunks initOpenCodeJsonlParser).1⟩

/-- The JSON line `{"sessionId":"abc"}` and an oracle that agrees with
`JSON.parse` on it. -/
def sessionIdOnlyLine : Str := "\x7b\"sessionId\":\"abc\"\x7d".data

def sessionIdOnlyParse : Str → Option Json := fun line =>
  if line = sessionIdOnlyLine then
    some (Json.obj [("sessionId".data, Json.str "abc".data)])
  else none

/-- C6 counterexample: the claim says a session id may appear under any
of `session_id`, `sessionID` or `sessionId` for both parsers; but after
pushing the newline-terminated line `{"sessionId":"abc"}` — whose parse
carries the non-empty string `abc` under `sessionId` — the Claude
parser's `engineSessionId()` is still `none` rather than `abc`. -/
theorem claudeSessionIdFieldNames_counterexample :
    (claudePushes sessionIdOnlyParse initClaudeStreamJsonParser
      [sessionIdOnlyLine ++ ['\n']]).1.latestEngineSessionId = none ∧
    sessionIdOnlyParse sessionIdOnlyLine =
      some (Json.obj [("sessionId".data, Json.str "abc".data)]) ∧
    Json.getNonEmptyString (Json.obj [("sessionId".data, Json.str "abc".data)])
      "sessionId".data = some "abc".data := by
  refine ⟨?_, ?_, ?_⟩ <;> rfl

/-! ## C7: OpenCode permission policy document -/

/-- C7: the `safe` permission record maps `*` to deny, `read`, `glob`,
`grep`, `list` to allow and `external_directory` to deny, with no `edit`
or `bash` entries; `unsafe` additionally maps `edit` to `{"*":"allow"}`
and `bash` to the deny-by-default command map with the six allowed and
four denied patterns; and neither serialized document contains the
substring `ask`. -/
theorem openCodePermissionPolicyDocument :
    permissionLookup OpenCodePermissionPolicy.safeMode "*".data =
      some (OpenCodePermissionValue.leaf PermissionLeaf.deny) ∧
    permissionLookup OpenCodePermissionPolicy.safeMode "read".data =
      some (OpenCodePermissionValue.leaf PermissionLeaf.allow) ∧
    permissionLookup OpenCodePermissionPolicy.safeMode "glob".data =
      some (OpenCodePermissionValue.leaf PermissionLeaf.allow) ∧
    permissionLookup OpenCodePermissionPolicy.safeMode "grep".data =
      some (OpenCodePermissionValue.leaf PermissionLeaf.allow) ∧
    permissionLookup OpenCodePermissionPolicy.safeMode "list".data =
      some (OpenCodePermissionValue.leaf PermissionLeaf.allow) ∧
    permissionLookup OpenCodePermissionPolicy.safeMode "external_directory".data =
      some (OpenCodePermissionValue.leaf PermissionLeaf.deny) ∧
    permissionLookup OpenCodePermissionPolicy.safeMode "edit".data = none ∧
    permissionLookup OpenCodePermissionPolicy.safeMode "bash".data = none ∧
    permissionLookup OpenCodePermissionPolicy.unsafeMode "*".data =
      some (OpenCodePermissionValue.leaf PermissionLeaf.deny) ∧
    permissionLookup OpenCodePermissionPolicy.unsafeMode "read".data =
      some (OpenCodePermissionValue.leaf PermissionLeaf.allow) ∧
    permissionLookup OpenCodePermissionPolicy.unsafeMode "glob".data =
      some (OpenCodePermissionValue.leaf PermissionLeaf.allow) ∧
    permissionLookup OpenCodePermissionPolicy.unsafeMode "grep".data =
      some (OpenCodePermissionValue.leaf PermissionLeaf.allow) ∧
    permissionLookup OpenCodePermissionPolicy.unsafeMode "list".data =
      some (OpenCodePermissionValue.leaf PermissionLeaf.allow) ∧
    permissionLookup OpenCodePermissionPolicy.unsafeMode "external_directory".data =
      some (OpenCodePermissionValue.leaf PermissionLeaf.deny) ∧
    permissionLookup OpenCodePermissionPolicy.unsafeMode "edit".data =
      some (OpenCodePermissionValue.table [("*".data, PermissionLeaf.allow)]) ∧
    permissionLookup OpenCodePermissionPolicy.unsafeMode "bash".data =
      some (OpenCodePermissionValue.table
        [("*".data, PermissionLeaf.deny),
         ("git *".data, PermissionLeaf.allow),
         ("pnpm *".data, PermissionLeaf.allow),
         ("npm *".data, PermissionLeaf.allow),
         ("cargo *".data, PermissionLeaf.allow),
         ("python *".data, PermissionLeaf.allow),
         ("node *".data, PermissionLeaf.allow),
         ("rm *".data, PermissionLeaf.deny),
         ("sudo *".data, PermissionLeaf.deny),
         ("dd *".data, PermissionLeaf.deny),
         ("mkfs *".data, PermissionLeaf.deny)]) ∧
    ¬ ("ask".data <:+:
        createOpenCodePermissionConfigContent OpenCodePermissionPolicy.safeMode) ∧
    ¬ ("ask".data <:+:
        createOpenCodePermissionConfigContent OpenCodePermissionPolicy.unsafeMode) := by
  set_option maxRecDepth 20000 in decide

/-! ## ProcessRunner cancellation (part: runner.ts, `ProcessRunner.start`)

A started handle is a state machine over three externally visible
actions: a `cancel()` call, the firing of the armed escalation timer
(representing "`cancelGraceMs` elapsed"), and the child's `close` event.
Each step returns the lifecycle events emitted and the signals sent.
`killed` models `child.killed` (a signal was delivered through
`child.kill`); the result is produced once, by the `close` handler.
-/

def DEFAULT_CANCEL_GRACE_MS : Nat := 1000

inductive RunnerSignal where
  | sigint : RunnerSignal
  | sigkill : RunnerSignal
deriving DecidableEq

inductive RunnerLifecycleStatus where
  | starting : RunnerLifecycleStatus
  | running : RunnerLifecycleStatus
  | cancelling : RunnerLifecycleStatus
  | killing : RunnerLifecycleStatus
  | exited : RunnerLifecycleStatus
deriving DecidableEq

inductive RunnerResultStatus where
  | completed : RunnerResultStatus
  | failed : RunnerResultStatus
  | cancelled : RunnerResultStatus
deriving DecidableEq

structure RunnerResult where
  status : RunnerResultStatus
  exitCode : Option Int
  signal : Option RunnerSignal
  cancelled : Bool
deriving DecidableEq

structure RunnerHandleState where
  cancelRequested : Bool
  killed : Bool
  exitCode : Option Int
  signalCode : Option RunnerSignal
  timerArmed : Bool
  graceMs : Nat
  result : Option RunnerResult
deriving DecidableEq

/-- The state of a handle just after a successful spawn (after the
`starting` and `running(pid)` lifecycle events). -/
def initRunnerHandle : RunnerHandleState :=
  { cancelRequested := false, killed := false, exitCode := none, signalCode := none,
    timerArmed := false, graceMs := 0, result := none }

inductive RunnerAction where
  | cancelCall : RunnerAction
  | graceTimerFire : RunnerAction
  | processClose (exitCode : Option Int) (signal : Option RunnerSignal) : RunnerAction
deriving DecidableEq

/-- One step of a started handle.  `cancel()` short-circuits when a
cancel was already requested or a signal already delivered; otherwise it
emits `cancelling`, sends SIGINT and arms the escalation timer with
`cancelGraceMs ?? DEFAULT_CANCEL_GRACE_MS`.  The timer callback
force-kills only when the child has neither exit code nor signal code.
The `close` handler clears the timer and resolves the result:
`cancelled` when a cancel was requested, else `completed` on exit code
0, else `failed`, with `cancelled = cancelRequested`. -/
def runnerStep (cancelGraceMs : Option Nat) (st : RunnerHandleState)
    (a : RunnerAction) :
    RunnerHandleState × List RunnerLifecycleStatus × List RunnerSignal :=
  match a with
  | RunnerAction.cancelCall =>
      if st.cancelRequested || st.killed then (st, [], [])
      else
        ({ st with
            cancelRequested := true, killed := true, timerArmed := true,
            graceMs := cancelGraceMs.getD DEFAULT_CANCEL_GRACE_MS },
          [RunnerLifecycleStatus.cancelling], [RunnerSignal.sigint])
  | RunnerAction.graceTimerFire =>
      if st.timerArmed then
        if st.exitCode = none ∧ st.signalCode = none then
          ({ st with timerArmed := false, killed := true },
            [RunnerLifecycleStatus.killing], [RunnerSignal.sigkill])
        else ({ st with timerArmed := false }, [], [])
      else (st, [], [])
  | RunnerAction.processClose code sig =>
      match st.result with
      | some _ => (st, [], [])
      | none =>
          let status :=
            if st.cancelRequested then RunnerResultStatus.cancelled
            else if code = some 0 then RunnerResultStatus.completed
            else RunnerResultStatus.failed
          ({ st with
              exitCode := code, signalCode := sig, timerArmed := false,
              result := some (RunnerResult.mk status code sig st.cancelRequested) },
            [RunnerLifecycleStatus.exited], [])

def runnerStepsFrom (g : Option Nat) (st : RunnerHandleState)
    (actions : List RunnerAction) :
    RunnerHandleState × List RunnerLifecycleStatus × List RunnerSignal :=
  actions.foldl
    (fun acc a =>
      let r := runnerStep g acc.1 a
      (r.1, acc.2.1 ++ r.2.1, acc.2.2 ++ r.2.2))
    (st, [], [])

/-- A full observable history of one started handle. -/
def runnerRunTrace (g : Option Nat) (actions : List RunnerAction) :
    RunnerHandleState × List RunnerLifecycleStatus × List RunnerSignal :=
  runnerStepsFrom g initRunnerHandle actions

def isCancelCall : RunnerAction → Bool
  | RunnerAction.cancelCall => true
  | _ => false

def hasCancelCall (actions : List RunnerAction) : Bool :=
  actions.any isCancelCall

/-- The actions preceding the first `close` event of a trace. -/
def beforeFirstClose : List RunnerAction → List RunnerAction
  | [] => []
  | RunnerAction.processClose _ _ :: _ => []
  | a :: rest => a :: beforeFirstClose rest

/-- The handle invariant: `child.killed` tracks `cancelRequested`
exactly (only `cancel()` and its escalation deliver signals), and the
escalation timer is armed only after a cancel. -/
def RunnerInv (st : RunnerHandleState) : Prop :=
  st.killed = st.cancelRequested ∧ (st.timerArmed = true → st.cancelRequested = true)

theorem runnerFoldShift (g : Option Nat) (actions : List RunnerAction) :
    ∀ (st : RunnerHandleState) (ls : List RunnerLifecycleStatus)
      (sigs : List RunnerSignal),
      actions.foldl
        (fun acc a =>
          let r := runnerStep g acc.1 a
          (r.1, acc.2.1 ++ r.2.1, acc.2.2 ++ r.2.2))
        (st, ls, sigs) =
      ((runnerStepsFrom g st actions).1, ls ++ (runnerStepsFrom g st actions).2.1,
        sigs ++ (runnerStepsFrom g st actions).2.2) := by
  induction actions with
  | nil => intro st ls sigs; simp [runnerStepsFrom]
  | cons a rest ih =>
      intro st ls sigs
      simp only [runnerStepsFrom, List.foldl_cons] at ih ⊢
      rw [ih, ih (runnerStep g st a).1 ([] ++ (runnerStep g st a).2.1)
        ([] ++ (runnerStep g st a).2.2)]
      simp [List.append_assoc]

theorem runnerSteps_cons (g : Option Nat) (st : RunnerHandleState)
    (a : RunnerAction) (rest : List RunnerAction) :
    runnerStepsFrom g st (a :: rest) =
      ((runnerStepsFrom g (runnerStep g st a).1 rest).1,
        (runnerStep g st a).2.1 ++
          (runnerStepsFrom g (runnerStep g st a).1 rest).2.1,
        (runnerStep g st a).2.2 ++
          (runnerStepsFrom g (runnerStep g st a).1 rest).2.2) := by
  simp only [runnerStepsFrom, List.foldl_cons]
  rw [runnerFoldShift g rest (runnerStep g st a).1
    ([] ++ (runnerStep g st a).2.1) ([] ++ (runnerStep g st a).2.2)]
  simp [runnerStepsFrom]

theorem runnerStep_result_frozen (g : Option Nat) (actions : List RunnerAction) :
    ∀ (st : RunnerHandleState) (r : RunnerResult), st.result = some r →
      (runnerStepsFrom g st actions).1.result = some r := by
  induction actions with
  | nil => intro st r h; exact h
  | cons a rest ih =>
      intro st r h
      have hstep : (runnerStep g st a).1.result = some r := by
        cases a with
        | cancelCall =>
            by_cases hc : (st.cancelRequested || st.killed) = true <;>
              simp [runnerStep, hc, h]
        | graceTimerFire =>
            by_cases ht : st.timerArmed = true
            · by_cases he : st.exitCode = none ∧ st.signalCode = none <;>
                simp [runnerStep, ht, he, h]
            · simp [runnerStep, ht, h]
        | processClose code sig =>
            simp [runnerStep, h]
      rw [runnerSteps_cons]
      exact ih (runnerStep g st a).1 r hstep

theorem runnerStep_inv (g : Option Nat) (st : RunnerHandleState) (a : RunnerAction)
    (h : RunnerInv st) : RunnerInv (runnerStep g st a).1 := by
  obtain ⟨hk, ht⟩ := h
  cases a with
  | cancelCall =>
      cases hcr : st.cancelRequested <;> cases hkl : st.killed <;>
        simp_all [runnerStep, RunnerInv]
  | graceTimerFire =>
      cases harm : st.timerArmed
      · simp_all [runnerStep, RunnerInv]
      · have hcr : st.cancelRequested = true := ht harm
        by_cases he : st.exitCode = none ∧ st.signalCode = none
        · simp only [runnerStep, harm, if_true]
          rw [if_pos he]
          exact ⟨by simp [hcr], by simp [hcr]⟩
        · simp only [runnerStep, harm, if_true]
          rw [if_neg he]
          exact ⟨hk, by simp⟩
  | processClose code sig =>
      rcases hr : st.result with _ | r <;>
        simp_all [runnerStep, RunnerInv]

theorem runnerSteps_cancelled_iff (g : Option Nat) (actions : List RunnerAction) :
    ∀ st : RunnerHandleState, RunnerInv st → st.result = none →
      (∀ r, (runnerStepsFrom g st actions).1.result = some r →
        ((r.cancelled = true ∧ r.status = RunnerResultStatus.cancelled) ↔
          (st.cancelRequested || hasCancelCall (beforeFirstClose actions)) = true)) ∧
      ((runnerStepsFrom g st actions).1.result = none →
        (runnerStepsFrom g st actions).1.cancelRequested =
          (st.cancelRequested || hasCancelCall actions)) := by
  induction actions with
  | nil =>
      intro st hinv hres
      refine ⟨?_, ?_⟩
      · intro r hr
        rw [show (runnerStepsFrom g st []).1 = st from rfl] at hr
        rw [hres] at hr
        exact absurd hr (by simp)
      · intro _
        simp [runnerStepsFrom, hasCancelCall]
  | cons a rest ih =>
      intro st hinv hres
      rw [runnerSteps_cons]
      cases a with
      | cancelCall =>
          have hbfc : beforeFirstClose (RunnerAction.cancelCall :: rest) =
              RunnerAction.cancelCall :: beforeFirstClose rest := rfl
          by_cases hc : (st.cancelRequested || st.killed) = true
          · have hcr : st.cancelRequested = true := by
              rcases Bool.or_eq_true_iff.mp hc with h | h
              · exact h
              · rw [hinv.1] at h; exact h
            have hstep : runnerStep g st RunnerAction.cancelCall = (st, [], []) := by
              simp [runnerStep, hc]
            rw [hstep]
            have hret := ih st hinv hres
            refine ⟨?_, ?_⟩
            · intro r hr
              have := hret.1 r hr
              simpa [hcr, hasCancelCall, isCancelCall, beforeFirstClose]
                using this
            · intro hn
              have := hret.2 hn
              simpa [hcr, hasCancelCall, isCancelCall] using this
          · have hstep : (runnerStep g st RunnerAction.cancelCall).1 =
                { st with
                  cancelRequested := true, killed := true, timerArmed := true,
                  graceMs := g.getD DEFAULT_CANCEL_GRACE_MS } := by
              simp [runnerStep, hc]
            rw [hstep]
            have hinv2 : RunnerInv { st with
                cancelRequested := true, killed := true, timerArmed := true,
                graceMs := g.getD DEFAULT_CANCEL_GRACE_MS } := by
              constructor <;> simp
            have hret := ih _ hinv2 (by simpa using hres)
            refine ⟨?_, ?_⟩
            · intro r hr
              have := hret.1 r hr
              simpa [hbfc, hasCancelCall, isCancelCall] using this
            · intro hn
              have := hret.2 hn
              simpa [hasCancelCall, isCancelCall] using this
      | graceTimerFire =>
          have hbfc : beforeFirstClose (RunnerAction.graceTimerFire :: rest) =
              RunnerAction.graceTimerFire :: beforeFirstClose rest := rfl
          have hinv2 := runnerStep_inv g st RunnerAction.graceTimerFire hinv
          have hcr : (runnerStep g st RunnerAction.graceTimerFire).1.cancelRequested =
              st.cancelRequested := by
            by_cases harm : st.timerArmed = true
            · by_cases he : st.exitCode = none ∧ st.signalCode = none <;>
                simp [runnerStep, harm, he]
            · simp [runnerStep, harm]
          have hrn : (runnerStep g st RunnerAction.graceTimerFire).1.result = none := by
            by_cases harm : st.timerArmed = true
            · by_cases he : st.exitCode = none ∧ st.signalCode = none <;>
                simp [runnerStep, harm, he, hres]
            · simp [runnerStep, harm, hres]
          have hret := ih _ hinv2 hrn
          refine ⟨?_, ?_⟩
          · intro r hr
            have := hret.1 r hr
            rw [hcr] at this
            simpa [hbfc, hasCancelCall, isCancelCall] using this
          · intro hn
            have := hret.2 hn
            rw [hcr] at this
            simpa [hasCancelCall, isCancelCall] using this
      | processClose code sig =>
          have hstep : (runnerStep g st (RunnerAction.processClose code sig)).1 =
              { st with
                exitCode := code, signalCode := sig, timerArmed := false,
                result := some (RunnerResult.mk
                  (if st.cancelRequested then RunnerResultStatus.cancelled
                    else if code = some 0 then RunnerResultStatus.completed
                    else RunnerResultStatus.failed)
                  code sig st.cancelRequested) } := by
            simp only [runnerStep, hres]
          rw [hstep]
          have hfrozen := runnerStep_result_frozen g rest
            { st with
              exitCode := code, signalCode := sig, timerArmed := false,
              result := some (RunnerResult.mk
                (if st.cancelRequested then RunnerResultStatus.cancelled
                  else if code = some 0 then RunnerResultStatus.completed
                  else RunnerResultStatus.failed)
                code sig st.cancelRequested) }
            (RunnerResult.mk
              (if st.cancelRequested then RunnerResultStatus.cancelled
                else if code = some 0 then RunnerResultStatus.completed
                else RunnerResultStatus.failed)
              code sig st.cancelRequested) rfl
          refine ⟨?_, ?_⟩
          · intro r hr
            rw [hfrozen] at hr
            have hreq : r = RunnerResult.mk
                (if st.cancelRequested then RunnerResultStatus.cancelled
                  else if code = some 0 then RunnerResultStatus.completed
                  else RunnerResultStatus.failed)
                code sig st.cancelRequested := by
              exact (Option.some.injEq _ _ ▸ hr).symm
            subst hreq
            have hbfc : beforeFirstClose (RunnerAction.processClose code sig :: rest) =
                [] := rfl
            rw [hbfc]
            cases hcr : st.cancelRequested with
            | true => simp [hcr, hasCancelCall]
            | false =>
                simp only [hcr, if_false, Bool.false_eq_true, hasCancelCall,
                  List.any_nil, Bool.or_false]
                constructor
                · intro hcon
                  exact absurd hcon.1 (by simp)
                · intro hcon
                  exact absurd hcon (by simp)
          · intro hn
            rw [hfrozen] at hn
            exact absurd hn (by simp)

/-- C5 (amended): runner cancellation semantics.  For a started handle:
the first `cancel()` (no cancel requested, no signal delivered yet)
emits the `cancelling` lifecycle event, sends SIGINT and arms the
escalation timer with `cancelGraceMs ?? 1000`; every further `cancel()`
is a no-op; when the armed timer fires while the process has neither
exit code nor signal code, the `killing` event is emitted and SIGKILL is
sent; and over any complete trace, the final result carries
`status = cancelled` with `cancelled = true` exactly when a `cancel()`
call preceded the process's `close` event (a `cancel()` arriving after
the close leaves the already-resolved result untouched). -/
theorem runnerCancellationSemantics (g : Option Nat) (st : RunnerHandleState)
    (actions : List RunnerAction) :
    (st.cancelRequested = false ∧ st.killed = false →
      runnerStep g st RunnerAction.cancelCall =
        ({ st with
            cancelRequested := true, killed := true, timerArmed := true,
            graceMs := g.getD DEFAULT_CANCEL_GRACE_MS },
          [RunnerLifecycleStatus.cancelling], [RunnerSignal.sigint])) ∧
    DEFAULT_CANCEL_GRACE_MS = 1000 ∧
    (st.cancelRequested = true →
      runnerStep g st RunnerAction.cancelCall = (st, [], [])) ∧
    (st.timerArmed = true → st.exitCode = none → st.signalCode = none →
      runnerStep g st RunnerAction.graceTimerFire =
        ({ st with timerArmed := false, killed := true },
          [RunnerLifecycleStatus.killing], [RunnerSignal.sigkill])) ∧
    (∀ r, (runnerRunTrace g actions).1.result = some r →
      ((r.cancelled = true ∧ r.status = RunnerResultStatus.cancelled) ↔
        hasCancelCall (beforeFirstClose actions) = true)) := by
  refine ⟨?_, rfl, ?_, ?_, ?_⟩
  · rintro ⟨h1, h2⟩
    simp [runnerStep, h1, h2]
  · intro h1
    simp [runnerStep, h1]
  · intro h1 h2 h3
    simp [runnerStep, h1, h2, h3]
  · intro r hr
    have := (runnerSteps_cancelled_iff g actions initRunnerHandle
      ⟨rfl, by intro h; exact absurd h (by simp [initRunnerHandle])⟩ rfl).1 r hr
    simpa [initRunnerHandle] using this

/-- Witness for C5: a concrete first cancel and a concrete cancelled
trace (`cancel()` then close), instantiating the theorem. -/
theorem runnerCancellationSemantics_witness :
    runnerStep none initRunnerHandle RunnerAction.cancelCall =
      ({ initRunnerHandle with
          cancelRequested := true, killed := true, timerArmed := true,
          graceMs := 1000 },
        [RunnerLifecycleStatus.cancelling], [RunnerSignal.sigint]) ∧
    ((RunnerResult.mk RunnerResultStatus.cancelled none (some RunnerSignal.sigkill)
        true).cancelled = true ∧
      (RunnerResult.mk RunnerResultStatus.cancelled none (some RunnerSignal.sigkill)
        true).status = RunnerResultStatus.cancelled ↔
      hasCancelCall (beforeFirstClose
        [RunnerAction.cancelCall,
          RunnerAction.processClose none (some RunnerSignal.sigkill)]) = true) := by
  have h := runnerCancellationSemantics none initRunnerHandle
    [RunnerAction.cancelCall,
      RunnerAction.processClose none (some RunnerSignal.sigkill)]
  exact ⟨h.1 ⟨rfl, rfl⟩, h.2.2.2.2 _ rfl⟩

/-- C5 counterexample: `cancel()` invoked after the process closed.  The
claim's "cancelled=true iff cancel() was invoked" fails: the trace
`[close(0), cancel()]` contains a `cancel()` call, yet the final result
is `completed` with `cancelled = false` (the result was resolved at the
close, before the cancel). -/
theorem runnerCancelledIff_counterexample :
    hasCancelCall
      [RunnerAction.processClose (some 0) none, RunnerAction.cancelCall] = true ∧
    (runnerRunTrace none
        [RunnerAction.processClose (some 0) none, RunnerAction.cancelCall]).1.result =
      some (RunnerResult.mk RunnerResultStatus.completed (some 0) none false) := by
  exact ⟨rfl, rfl⟩

/-! ## Store (part: DrizzleStorageRepository over schema.ts)

Tables are lists of rows in insertion order; an SQL `UPDATE … WHERE`
maps the matching rows.  Status columns are strings, exactly as in the
schema.
-/

structure RunRow where
  id : Str
  projectId : Str
  sessionId : Str
  idempotencyKey : Str
  prompt : Str
  status : Str
  startedAt : Option Nat
  finishedAt : Option Nat
  summaryJson : Option Str
  createdAt : Nat
  updatedAt : Nat
deriving DecidableEq

structure JobRow where
  id : Str
  runId : Str
  status : Str
  leaseOwner : Option Str
  leaseExpiresAt : Option Nat
  availableAt : Nat
  attempts : Nat
  lastError : Option Str
  createdAt : Nat
  updatedAt : Nat
deriving DecidableEq

structure RunEventRow where
  id : Str
  runId : Str
  seq : Nat
  eventType : Str
  payloadJson : Str
  createdAt : Nat
deriving DecidableEq

structure SessionRow where
  id : Str
  projectId : Str
  chatId : Option Str
  provider : Str
  engineSessionId : Option Str
  status : Str
  prompt : Str
  createdAt : Nat
  updatedAt : Nat
deriving DecidableEq

structure StoreState where
  runs : List RunRow
  jobs : List JobRow
  runEvents : List RunEventRow
  sessions : List SessionRow
deriving DecidableEq

def emptyStore : StoreState :=
  { runs := [], jobs := [], runEvents := [], sessions := [] }

/-- `UPDATE table SET … WHERE cond`. -/
def updateWhere {α : Type} (cond : α → Bool) (set : α → α) (rows : List α) :
    List α :=
  rows.map fun r => if cond r then set r else r

def isActiveRunStatus (s : Str) : Bool :=
  s = "queued".data || s = "in_flight".data || s = "leased".data

/-- `createRun`: inserts the run row (`createdAt`/`updatedAt` = now). -/
def repoCreateRun (st : StoreState) (id projectId sessionId idempotencyKey prompt
    status : Str) (startedAt : Option Nat) (summaryJson : Option Str) (now : Nat) :
    StoreState :=
  { st with
    runs := st.runs ++
      [{ id := id, projectId := projectId, sessionId := sessionId,
          idempotencyKey := idempotencyKey, prompt := prompt, status := status,
          startedAt := startedAt, finishedAt := none, summaryJson := summaryJson,
          createdAt := now, updatedAt := now }] }

/-- `enqueueJob`: inserts a `queued` job with `attempts = 0`. -/
def repoEnqueueJob (st : StoreState) (id runId : Str) (availableAt now : Nat) :
    StoreState :=
  { st with
    jobs := st.jobs ++
      [{ id := id, runId := runId, status := "queued".data, leaseOwner := none,
          leaseExpiresAt := none, availableAt := availableAt, attempts := 0,
          lastError := none, createdAt := now, updatedAt := now }] }

def getRunById (st : StoreState) (runId : Str) : Option RunRow :=
  st.runs.find? fun r => r.id = runId

def getRunByIdempotencyKey (st : StoreState) (key : Str) : Option RunRow :=
  st.runs.find? fun r => r.idempotencyKey = key

/-- `findActiveRunBySession`: a run of the session in
`{queued, in_flight, leased}` (the query orders by `createdAt` and takes
one; the model returns the first matching row — the claims below depend
only on whether one exists). -/
def findActiveRunBySession (st : StoreState) (sessionId : Str) : Option RunRow :=
  st.runs.find? fun r => r.sessionId = sessionId && isActiveRunStatus r.status

def getSessionById (st : StoreState) (sessionId : Str) : Option SessionRow :=
  st.sessions.find? fun s => s.id = sessionId

def markRunInFlight (st : StoreState) (runId : Str) (startedAt : Nat) : StoreState :=
  { st with
    runs := updateWhere (fun r => r.id = runId)
      (fun r => { r with
        status := "in_flight".data, startedAt := some startedAt,
        updatedAt := startedAt }) st.runs }

def finalizeRun (st : StoreState) (runId : Str) (status : Str) (finishedAt : Nat)
    (summaryJson : Option Str) : StoreState :=
  { st with
    runs := updateWhere (fun r => r.id = runId)
      (fun r => { r with
        status := status, finishedAt := some finishedAt,
        summaryJson := summaryJson, updatedAt := finishedAt }) st.runs }

/-- `abandonRun`: updates the run only when its status is currently
`in_flight`. -/
def abandonRun (st : StoreState) (runId : Str) (finishedAt : Nat) : StoreState :=
  { st with
    runs := updateWhere (fun r => r.id = runId && r.status = "in_flight".data)
      (fun r => { r with
        status := "abandoned".data, finishedAt := some finishedAt,
        updatedAt := finishedAt }) st.runs }

/-- `cancelRun`: unconditionally cancels the run row by id and its job
row(s) by run id, clearing the lease. -/
def cancelRun (st : StoreState) (runId : Str) (now : Nat) : StoreState :=
  let st := { st with
    runs := updateWhere (fun r => r.id = runId)
      (fun r => { r with
        status := "cancelled".data, finishedAt := some now, updatedAt := now })
      st.runs }
  { st with
    jobs := updateWhere (fun j => j.runId = runId)
      (fun j => { j with
        status := "cancelled".data, leaseOwner := none, leaseExpiresAt := none,
        updatedAt := now }) st.jobs }

def completeJob (st : StoreState) (jobId : Str) (now : Nat) : StoreState :=
  { st with
    jobs := updateWhere (fun j => j.id = jobId)
      (fun j => { j with
        status := "completed".data, leaseOwner := none, leaseExpiresAt := none,
        updatedAt := now }) st.jobs }

def failJob (st : StoreState) (jobId : Str) (now : Nat) (error : Str) : StoreState :=
  { st with
    jobs := updateWhere (fun j => j.id = jobId)
      (fun j => { j with
        status := "failed".data, leaseOwner := none, leaseExpiresAt := none,
        lastError := some error, updatedAt := now }) st.jobs }

def requeueLeasedJobByRunId (st : StoreState) (runId : Str) (now : Nat) : StoreState :=
  { st with
    jobs := updateWhere (fun j => j.runId = runId && j.status = "leased".data)
      (fun j => { j with
        status := "queued".data, leaseOwner := none, leaseExpiresAt := none,
        availableAt := now, updatedAt := now }) st.jobs }

def getJobByRunId (st : StoreState) (runId : Str) : Option JobRow :=
  st.jobs.find? fun j => j.runId = runId

def jobLeasable (now : Nat) (j : JobRow) : Bool :=
  j.status = "queued".data && j.availableAt ≤ now &&
    (j.leaseExpiresAt.isNone || j.leaseExpiresAt.getD 0 ≤ now)

/-- `leaseNextJob`: the oldest leasable candidate (`ORDER BY availableAt,
createdAt`, earlier row on ties), flipped to `leased` with the lease and
an `attempts` bump, read back. -/
def leaseNextJob (st : StoreState) (owner : Str) (now leaseDurationMs : Nat) :
    StoreState × Option JobRow :=
  let candidates := st.jobs.filter (jobLeasable now)
  match candidates with
  | [] => (st, none)
  | c0 :: cs =>
      let candidate := cs.foldl
        (fun best j =>
          if j.availableAt < best.availableAt ∨
              (j.availableAt = best.availableAt ∧ j.createdAt < best.createdAt)
          then j else best)
        c0
      let st := { st with
        jobs := updateWhere
          (fun j => j.id = candidate.id && j.status = "queued".data &&
            (j.leaseExpiresAt.isNone || j.leaseExpiresAt.getD 0 ≤ now))
          (fun j => { j with
            leaseOwner := some owner, leaseExpiresAt := some (now + leaseDurationMs),
            status := "leased".data, attempts := j.attempts + 1, updatedAt := now })
          st.jobs }
      (st, st.jobs.find? fun j =>
        j.id = candidate.id && j.leaseOwner = some owner && j.status = "leased".data)

def listRunsByStatus (st : StoreState) (status : Str) : List RunRow :=
  st.runs.filter fun r => r.status = status

/-- `appendRunEvent`: `seq = coalesce(max(seq for runId), 0) + 1`,
insert, return the sequence number. -/
def appendRunEvent (st : StoreState) (id runId eventType payloadJson : Str)
    (createdAt : Nat) : StoreState × Nat :=
  let maxSeq := (st.runEvents.filter fun e => e.runId = runId).foldl
    (fun m e => max m e.seq) 0
  let nextSeq := maxSeq + 1
  ({ st with
      runEvents := st.runEvents ++
        [{ id := id, runId := runId, seq := nextSeq, eventType := eventType,
            payloadJson := payloadJson, createdAt := createdAt }] },
    nextSeq)

/-! ## C2: gap-free run-event sequence numbers -/

def seqsOfRun (st : StoreState) (runId : Str) : List Nat :=
  (st.runEvents.filter fun e => e.runId = runId).map fun e => e.seq

def maxSeqOfRun (st : StoreState) (runId : Str) : Nat :=
  (st.runEvents.filter fun e => e.runId = runId).foldl (fun m e => max m e.seq) 0

structure AppendInput where
  id : Str
  runId : Str
  eventType : Str
  payloadJson : Str
  createdAt : Nat

/-- A sequence of `appendRunEvent` calls, in order. -/
def foldAppends (st : StoreState) (inputs : List AppendInput) : StoreState :=
  inputs.foldl
    (fun s i => (appendRunEvent s i.id i.runId i.eventType i.payloadJson i.createdAt).1)
    st

theorem maxSeqOfRun_eq_foldl (st : StoreState) (runId : Str) :
    maxSeqOfRun st runId = (seqsOfRun st runId).foldl max 0 := by
  simp [maxSeqOfRun, seqsOfRun, List.foldl_map]

theorem foldl_max_range (n : Nat) : (List.range' 1 n).foldl max 0 = n := by
  induction n with
  | zero => rfl
  | succ n ih =>
      rw [List.range'_1_concat, List.foldl_append, ih]
      simp [Nat.max_def]
      omega

theorem appendRunEvent_seqsOf (st : StoreState) (i : AppendInput) (rid : Str) :
    seqsOfRun (appendRunEvent st i.id i.runId i.eventType i.payloadJson
      i.createdAt).1 rid =
      if i.runId = rid then seqsOfRun st rid ++ [maxSeqOfRun st i.runId + 1]
      else seqsOfRun st rid := by
  by_cases h : i.runId = rid <;>
    simp [appendRunEvent, seqsOfRun, maxSeqOfRun, List.filter_append, h]

theorem foldAppends_gapFree (inputs : List AppendInput) :
    ∀ st : StoreState,
      (∀ rid, seqsOfRun st rid = List.range' 1 (seqsOfRun st rid).length) →
      ∀ rid, seqsOfRun (foldAppends st inputs) rid =
        List.range' 1
          ((seqsOfRun st rid).length + (inputs.filter fun i => i.runId = rid).length) := by
  induction inputs with
  | nil => intro st h rid; simpa [foldAppends] using h rid
  | cons i rest ih =>
      intro st h rid
      have hstep : ∀ rid2,
          seqsOfRun (appendRunEvent st i.id i.runId i.eventType i.payloadJson
            i.createdAt).1 rid2 =
          List.range' 1 (seqsOfRun (appendRunEvent st i.id i.runId i.eventType
            i.payloadJson i.createdAt).1 rid2).length := by
        intro rid2
        rw [appendRunEvent_seqsOf]
        by_cases h2 : i.runId = rid2
        · subst h2
          simp only [eq_self_iff_true, if_true]
          have hlen := h i.runId
          have hmax : maxSeqOfRun st i.runId = (seqsOfRun st i.runId).length := by
            rw [maxSeqOfRun_eq_foldl]
            conv_lhs => rw [hlen]
            rw [foldl_max_range]
          rw [hmax]
          set L := (seqsOfRun st i.runId).length with hL
          rw [List.length_append, List.length_singleton]
          conv_lhs => rw [hlen]
          rw [List.range'_1_concat]
          simp [Nat.add_comm]
        · simp only [h2, if_false]
          exact h rid2
      have hfold : foldAppends st (i :: rest) =
          foldAppends (appendRunEvent st i.id i.runId i.eventType i.payloadJson
            i.createdAt).1 rest := rfl
      rw [hfold, ih _ hstep rid]
      rw [appendRunEvent_seqsOf]
      by_cases h2 : i.runId = rid
      · simp only [h2, if_true, List.length_append, List.length_singleton,
          List.filter_cons, h2]
        simp [h2]
        omega
      · simp only [h2, if_false, List.filter_cons]
        simp [h2]

/-- C2: run-event sequence numbers are gap-free.  `appendRunEvent`
inserts the new event with `seq = max(existing seq for the run) + 1` (so
1 for the first event), and after any sequence of appends starting from
an empty event table, the `seq` values of each run's events are exactly
`1..n` in order, with no gaps. -/
theorem appendRunEvent_gapFreeSeqs (inputs : List AppendInput) (rid : Str)
    (st : StoreState) (i : AppendInput) :
    seqsOfRun (foldAppends emptyStore inputs) rid =
      List.range' 1 ((inputs.filter fun i2 => i2.runId = rid).length) ∧
    (appendRunEvent st i.id i.runId i.eventType i.payloadJson i.createdAt).2 =
      maxSeqOfRun st i.runId + 1 ∧
    (appendRunEvent st i.id i.runId i.eventType i.payloadJson
        i.createdAt).1.runEvents =
      st.runEvents ++
        [RunEventRow.mk i.id i.runId (maxSeqOfRun st i.runId + 1) i.eventType
          i.payloadJson i.createdAt] := by
  refine ⟨?_, rfl, rfl⟩
  have h := foldAppends_gapFree inputs emptyStore
    (by intro rid2; simp [seqsOfRun, emptyStore]) rid
  simpa [seqsOfRun, emptyStore] using h

/-! ## C10: cancelRun is unguarded; abandonRun is guarded -/

theorem forall₂_updateWhere {α : Type} (cond : α → Bool) (upd : α → α)
    (rows : List α) (P : α → α → Prop)
    (h : ∀ r, P r (if cond r then upd r else r)) :
    List.Forall₂ P rows (updateWhere cond upd rows) := by
  unfold updateWhere
  rw [List.forall₂_map_right_iff]
  exact List.forall₂_same.mpr fun r _ => h r

/-- C10: for every run id and clock value, `cancelRun` sets the run row
to `cancelled` with `finishedAt = now` regardless of its current status
(a `completed`, `failed` or `abandoned` run is overwritten), and sets
its job row(s) to `cancelled` clearing `leaseOwner`/`leaseExpiresAt`
regardless of job status, while leaving every other run column (prompt,
idempotencyKey, summaryJson, startedAt, createdAt, ids) and job column
(attempts, availableAt, lastError, createdAt, ids) unchanged, and
touching no other table; `abandonRun` by contrast rewrites a run only
when its status is currently `in_flight` and leaves every other row
unchanged. -/
theorem cancelRun_unguarded_frame (st : StoreState) (runId : Str) (now t : Nat) :
    List.Forall₂
      (fun old new =>
        (old.id = runId →
          new.status = "cancelled".data ∧ new.finishedAt = some now ∧
          new.updatedAt = now ∧ new.id = old.id ∧ new.projectId = old.projectId ∧
          new.sessionId = old.sessionId ∧ new.idempotencyKey = old.idempotencyKey ∧
          new.prompt = old.prompt ∧ new.startedAt = old.startedAt ∧
          new.summaryJson = old.summaryJson ∧ new.createdAt = old.createdAt) ∧
        (old.id ≠ runId → new = old))
      st.runs (cancelRun st runId now).runs ∧
    List.Forall₂
      (fun old new =>
        (old.runId = runId →
          new.status = "cancelled".data ∧ new.leaseOwner = none ∧
          new.leaseExpiresAt = none ∧ new.updatedAt = now ∧ new.id = old.id ∧
          new.runId = old.runId ∧ new.availableAt = old.availableAt ∧
          new.attempts = old.attempts ∧ new.lastError = old.lastError ∧
          new.createdAt = old.createdAt) ∧
        (old.runId ≠ runId → new = old))
      st.jobs (cancelRun st runId now).jobs ∧
    (cancelRun st runId now).runEvents = st.runEvents ∧
    (cancelRun st runId now).sessions = st.sessions ∧
    List.Forall₂
      (fun old new =>
        (old.id = runId ∧ old.status = "in_flight".data →
          new = { old with
            status := "abandoned".data, finishedAt := some t, updatedAt := t }) ∧
        (¬(old.id = runId ∧ old.status = "in_flight".data) → new = old))
      st.runs (abandonRun st runId t).runs ∧
    (abandonRun st runId t).jobs = st.jobs ∧
    (abandonRun st runId t).runEvents = st.runEvents ∧
    (abandonRun st runId t).sessions = st.sessions := by
  refine ⟨?_, ?_, rfl, rfl, ?_, rfl, rfl, rfl⟩
  · apply forall₂_updateWhere
    intro r
    by_cases hc : r.id = runId <;> simp [hc]
  · apply forall₂_updateWhere
    intro j
    by_cases hc : j.runId = runId <;> simp [hc]
  · apply forall₂_updateWhere
    intro r
    by_cases h1 : r.id = runId <;> by_cases h2 : r.status = "in_flight".data <;>
      simp [h1, h2]

/-! ## RunOrchestrator (part: orchestrator.ts)

State: the store plus the in-memory `activeSessions` set.  `randomUUID`
values enter as parameters; the step relation requires them fresh, as
the schema's primary keys guarantee.  `Date.now()` readings enter as
explicit instants.
-/

structure OrchState where
  store : StoreState
  activeSessions : List Str
deriving DecidableEq

def initOrchState : OrchState :=
  { store := emptyStore, activeSessions := [] }

inductive OrchError where
  | sessionAlreadyActive (sessionId : Str) : OrchError
deriving DecidableEq

inductive RunExitStatus where
  | success : RunExitStatus
  | error : RunExitStatus
  | cancelled : RunExitStatus
deriving DecidableEq

def mapExitStatusToRunStatus : RunExitStatus → Str
  | RunExitStatus.success => "completed".data
  | RunExitStatus.cancelled => "cancelled".data
  | RunExitStatus.error => "failed".data

def exitStatusStr : RunExitStatus → Str
  | RunExitStatus.success => "success".data
  | RunExitStatus.error => "error".data
  | RunExitStatus.cancelled => "cancelled".data

structure RunSummary where
  durationMs : Nat
  toolCallsCount : Nat
  bytesIn : Nat
  bytesOut : Nat
  exitStatus : RunExitStatus

/-- The `JSON.stringify({...})` of a run summary, keys in insertion
order. -/
def summaryJsonOf (s : RunSummary) : Str :=
  Json.stringify (Json.obj
    [("duration_ms".data, Json.num s.durationMs),
     ("tool_calls_count".data, Json.num s.toolCallsCount),
     ("bytes_in".data, Json.num s.bytesIn),
     ("bytes_out".data, Json.num s.bytesOut),
     ("exit_status".data, Json.str (exitStatusStr s.exitStatus))])

def isToolStart : NormalizedEngineEvent → Bool
  | NormalizedEngineEvent.tool_start _ _ _ _ => true
  | _ => false

/-- The discriminator tag of a normalized event (`event.type`). -/
def eventTypeStr : NormalizedEngineEvent → Str
  | NormalizedEngineEvent.run_started _ _ _ => "run_started".data
  | NormalizedEngineEvent.engine_meta _ _ _ _ => "engine_meta".data
  | NormalizedEngineEvent.text_delta _ _ _ => "text_delta".data
  | NormalizedEngineEvent.tool_start _ _ _ _ => "tool_start".data
  | NormalizedEngineEvent.tool_end _ _ _ _ => "tool_end".data
  | NormalizedEngineEvent.error _ _ _ => "error".data
  | NormalizedEngineEvent.run_finished _ _ => "run_finished".data
  | NormalizedEngineEvent.file_uploaded _ _ _ _ _ => "file_uploaded".data
  | NormalizedEngineEvent.file_downloaded _ _ _ _ _ => "file_downloaded".data

/-- External ingredients of one `processNextLeasedJob` call that the
code obtains from the environment: `randomUUID()` for appended event
rows, `JSON.stringify(event)` payloads, and `TextEncoder` byte
lengths. -/
structure OrchEnv where
  eventId : Nat → Str
  payloadOf : NormalizedEngineEvent → Str
  encodedLength : NormalizedEngineEvent → Nat

/-- `deriveRunSummary` (`Math.max(0, finishedAt - startedAt)` is
truncated subtraction). -/
def deriveRunSummary (env : OrchEnv) (startedAt finishedAt : Nat)
    (events : List NormalizedEngineEvent) (exitStatus : RunExitStatus)
    (bytesIn? bytesOut? : Option Nat) : RunSummary :=
  { durationMs := finishedAt - startedAt,
    toolCallsCount := (events.filter isToolStart).length,
    bytesIn := bytesIn?.getD 0,
    bytesOut := bytesOut?.getD ((events.map env.encodedLength).foldl (· + ·) 0),
    exitStatus := exitStatus }

/-- `createRun` / `enqueueRun` of the orchestrator: idempotency-key
lookup first, then `assertSessionSingleFlight` (the in-memory set, then
`findActiveRunBySession`), then the run (`queued`) and job (`queued`,
`availableAt ?? now`) inserts.  A thrown `SessionAlreadyActiveError`
leaves the store untouched. -/
def orchCreateRun (o : OrchState) (projectId sessionId idempotencyKey prompt : Str)
    (availableAt : Option Nat) (runId jobId : Str) (now : Nat) :
    Except OrchError (OrchState × Str) :=
  match getRunByIdempotencyKey o.store idempotencyKey with
  | some existing => Except.ok (o, existing.id)
  | none =>
      if o.activeSessions.contains sessionId then
        Except.error (OrchError.sessionAlreadyActive sessionId)
      else
        match findActiveRunBySession o.store sessionId with
        | some _ => Except.error (OrchError.sessionAlreadyActive sessionId)
        | none =>
            let st := repoCreateRun o.store runId projectId sessionId idempotencyKey
              prompt "queued".data none none now
            let st := repoEnqueueJob st jobId runId (availableAt.getD now) now
            Except.ok ({ o with store := st }, runId)

/-- The executor call's outcome: a result or a thrown exception. -/
inductive ExecOutcome where
  | ok (events : List NormalizedEngineEvent) (exitStatus : RunExitStatus)
      (bytesIn? bytesOut? : Option Nat) (eventsPersisted : Bool) : ExecOutcome
  | thrown (message : Str) : ExecOutcome

inductive ProcessOutcome where
  | noJob : ProcessOutcome
  | missingRun : ProcessOutcome
  | requeuedCollision : ProcessOutcome
  | missingSession : ProcessOutcome
  | completed (runId jobId runStatus : Str) : ProcessOutcome
  | raised (message : Str) : ProcessOutcome

/-- Persist the executor's events in order (`appendRunEvent` per event,
fresh ids from the environment). -/
def persistEvents (env : OrchEnv) (st : StoreState) (runId : Str)
    (events : List NormalizedEngineEvent) (createdAt : Nat) : StoreState :=
  (events.foldl
    (fun acc e =>
      ((appendRunEvent acc.1 (env.eventId acc.2) runId (eventTypeStr e)
        (env.payloadOf e) createdAt).1, acc.2 + 1))
    (st, 0)).1

/-- `processNextLeasedJob`: lease, load the run, collision check against
the in-memory set, load the session, mark in-flight, execute, persist
events unless the executor already did, finalize and complete the job —
or, on a thrown executor error, append an `error` event, finalize the
run `failed` and fail the job (the exception then re-raises).  The
`activeSessions` entry added before execution is removed in the
`finally`, so the set is restored; the model reads it and leaves it
unchanged. -/
def processNextLeasedJob (env : OrchEnv) (o : OrchState) (owner : Str)
    (now leaseDurationMs startedAt finishedAt : Nat) (exec : ExecOutcome) :
    OrchState × ProcessOutcome :=
  match leaseNextJob o.store owner now leaseDurationMs with
  | (st1, none) => ({ o with store := st1 }, ProcessOutcome.noJob)
  | (st1, some job) =>
      match getRunById st1 job.runId with
      | none =>
          ({ o with store := failJob st1 job.id now "missing run for leased job".data },
            ProcessOutcome.missingRun)
      | some run =>
          if o.activeSessions.contains run.sessionId then
            ({ o with store := requeueLeasedJobByRunId st1 run.id now },
              ProcessOutcome.requeuedCollision)
          else
            match getSessionById st1 run.sessionId with
            | none =>
                let st2 := failJob st1 job.id now "missing session for run".data
                let st3 := finalizeRun st2 run.id "failed".data now
                  (some (summaryJsonOf
                    { durationMs := 0, toolCallsCount := 0, bytesIn := 0,
                      bytesOut := 0, exitStatus := RunExitStatus.error }))
                ({ o with store := st3 }, ProcessOutcome.missingSession)
            | some _session =>
                let st2 := markRunInFlight st1 run.id startedAt
                match exec with
                | ExecOutcome.ok events exitStatus bytesIn? bytesOut? eventsPersisted =>
                    let st3 := if eventsPersisted then st2
                      else persistEvents env st2 run.id events finishedAt
                    let summary := deriveRunSummary env startedAt finishedAt events
                      exitStatus bytesIn? bytesOut?
                    let runStatus := mapExitStatusToRunStatus exitStatus
                    let st4 := finalizeRun st3 run.id runStatus finishedAt
                      (some (summaryJsonOf summary))
                    let st5 := completeJob st4 job.id finishedAt
                    ({ o with store := st5 },
                      ProcessOutcome.completed run.id job.id runStatus)
                | ExecOutcome.thrown message =>
                    let st3 := (appendRunEvent st2 (env.eventId 0) run.id "error".data
                      (Json.stringify (Json.obj
                        [("type".data, Json.str "error".data),
                         ("message".data, Json.str message)]))
                      finishedAt).1
                    let st4 := finalizeRun st3 run.id "failed".data finishedAt
                      (some (summaryJsonOf
                        { durationMs := finishedAt - startedAt, toolCallsCount := 0,
                          bytesIn := 0, bytesOut := 0,
                          exitStatus := RunExitStatus.error }))
                    let st5 := failJob st4 job.id finishedAt message
                    ({ o with store := st5 }, ProcessOutcome.raised message)

/-- `reconcileInFlightRuns`: abandon every stale `in_flight` run and
requeue its leased job. -/
def reconcileInFlightRuns (o : OrchState) (now staleBeforeMs : Nat) :
    OrchState × List Str × Nat :=
  let inFlightRuns := listRunsByStatus o.store "in_flight".data
  let staleRuns := inFlightRuns.filter fun run =>
    staleBeforeMs = 0 || staleBeforeMs ≤ now - run.startedAt.getD run.updatedAt
  let final := staleRuns.foldl
    (fun (acc : StoreState × List Str × Nat) run =>
      let st := abandonRun acc.1 run.id now
      let st := requeueLeasedJobByRunId st run.id now
      let requeued :=
        match getJobByRunId st run.id with
        | some j => if j.status = "queued".data then acc.2.2 + 1 else acc.2.2
        | none => acc.2.2
      (st, acc.2.1 ++ [run.id], requeued))
    (o.store, [], 0)
  ({ o with store := final.1 }, final.2.1, final.2.2)

/-- One orchestrator operation (or a store-level cancel), atomically. -/
inductive OrchStep : OrchState → OrchState → Prop where
  | createRunOk (o o' : OrchState) (projectId sessionId idempotencyKey prompt : Str)
      (availableAt : Option Nat) (runId jobId : Str) (now : Nat) (rid : Str)
      (hfreshRun : ∀ r ∈ o.store.runs, r.id ≠ runId)
      (hfreshJob : ∀ j ∈ o.store.jobs, j.id ≠ jobId)
      (hcall : orchCreateRun o projectId sessionId idempotencyKey prompt availableAt
        runId jobId now = Except.ok (o', rid)) :
      OrchStep o o'
  | processJob (o : OrchState) (env : OrchEnv) (owner : Str)
      (now leaseDurationMs startedAt finishedAt : Nat) (exec : ExecOutcome) :
      OrchStep o (processNextLeasedJob env o owner now leaseDurationMs startedAt
        finishedAt exec).1
  | reconcile (o : OrchState) (now staleBeforeMs : Nat) :
      OrchStep o (reconcileInFlightRuns o now staleBeforeMs).1
  | cancel (o : OrchState) (runId : Str) (now : Nat) :
      OrchStep o { o with store := cancelRun o.store runId now }

/-- Reflexive-transitive reachability through orchestrator operations. -/
inductive OrchReach : OrchState → OrchState → Prop where
  | refl (o : OrchState) : OrchReach o o
  | tail (o o' o'' : OrchState) (hr : OrchReach o o') (hs : OrchStep o' o'') :
      OrchReach o o''

def activeCount (st : StoreState) (s : Str) : Nat :=
  (st.runs.filter fun r => r.sessionId = s && isActiveRunStatus r.status).length

/-- The inductive invariant carried between atomic orchestrator
operations. -/
structure OrchInv (o : OrchState) : Prop where
  singleFlight : ∀ s, activeCount o.store s ≤ 1
  runIdsUnique : o.store.runs.Pairwise fun a b => a.id ≠ b.id
  runKeysUnique : o.store.runs.Pairwise fun a b => a.idempotencyKey ≠ b.idempotencyKey
  noInFlight : ∀ r ∈ o.store.runs, r.status ≠ "in_flight".data
  noLeased : ∀ j ∈ o.store.jobs, j.status ≠ "leased".data
  jobIdsUnique : o.store.jobs.Pairwise fun a b => a.id ≠ b.id
  jobRunIdsUnique : o.store.jobs.Pairwise fun a b => a.runId ≠ b.runId
  jobRunExists : ∀ j ∈ o.store.jobs, ∃ r ∈ o.store.runs, r.id = j.runId
  queuedJobRunQueued : ∀ j ∈ o.store.jobs, j.status = "queued".data →
    ∃ r ∈ o.store.runs, r.id = j.runId ∧ r.status = "queued".data
  activeEmpty : o.activeSessions = []

/-! ### List helpers for the invariant proofs -/

theorem find?_eq_some_unique {α : Type} (p : α → Bool) (c : α) :
    ∀ rows : List α, c ∈ rows → p c = true →
      (∀ y ∈ rows, y ≠ c → p y = false) → rows.find? p = some c := by
  intro rows
  induction rows with
  | nil => intro h; cases h
  | cons x xs ih =>
      intro hc hpc hothers
      by_cases hx : x = c
      · subst hx
        simp [List.find?_cons, hpc]
      · have hpx : p x = false := hothers x (List.mem_cons_self x xs) hx
        have hc' : c ∈ xs := by
          cases hc with
          | head => exact absurd rfl hx
          | tail _ h => exact h
        simp only [List.find?_cons, hpx]
        exact ih hc' hpc fun y hy hne => hothers y (List.mem_cons_of_mem x hy) hne

theorem pairwise_key_ne {α β : Type} (key : α → β) (l : List α)
    (h : l.Pairwise fun a b => key a ≠ key b) :
    ∀ a ∈ l, ∀ b ∈ l, a ≠ b → key a ≠ key b := by
  induction l with
  | nil => intro a ha; cases ha
  | cons x xs ih =>
      rcases List.pairwise_cons.mp h with ⟨hx, hxs⟩
      intro a ha b hb hne
      cases ha with
      | head =>
          cases hb with
          | head => exact absurd rfl hne
          | tail _ hb' => exact hx b hb'
      | tail _ ha' =>
          cases hb with
          | head => exact fun he => (hx a ha') he.symm
          | tail _ hb' => exact ih hxs a ha' b hb' hne

theorem pairwise_key_eq {α β : Type} (key : α → β) (l : List α)
    (h : l.Pairwise fun a b => key a ≠ key b) :
    ∀ a ∈ l, ∀ b ∈ l, key a = key b → a = b := by
  intro a ha b hb hk
  by_contra hne
  exact pairwise_key_ne key l h a ha b hb hne hk

theorem pairwise_updateWhere {α β : Type} (cond : α → Bool) (upd : α → α)
    (key : α → β) (rows : List α) (hk : ∀ x, key (upd x) = key x)
    (h : rows.Pairwise fun a b => key a ≠ key b) :
    (updateWhere cond upd rows).Pairwise fun a b => key a ≠ key b := by
  unfold updateWhere
  rw [List.pairwise_map]
  refine h.imp ?_
  intro a b hab
  by_cases hca : cond a = true <;> by_cases hcb : cond b = true <;>
    simp [hca, hcb, hk, hab]

theorem mem_updateWhere_image {α : Type} (cond : α → Bool) (upd : α → α)
    (rows : List α) (y : α) (hy : y ∈ updateWhere cond upd rows) :
    ∃ x ∈ rows, y = if cond x then upd x else x := by
  unfold updateWhere at hy
  rcases List.mem_map.mp hy with ⟨x, hx, hxy⟩
  exact ⟨x, hx, hxy.symm⟩

theorem updateWhere_mem_of_mem {α : Type} (cond : α → Bool) (upd : α → α)
    (rows : List α) (x : α) (hx : x ∈ rows) :
    (if cond x then upd x else x) ∈ updateWhere cond upd rows := by
  unfold updateWhere
  exact List.mem_map.mpr ⟨x, hx, rfl⟩

theorem updateWhere_comp {α : Type} (cond : α → Bool) (f g : α → α)
    (rows : List α) (hc : ∀ x, cond (f x) = cond x) :
    updateWhere cond g (updateWhere cond f rows) =
      updateWhere cond (fun x => g (f x)) rows := by
  unfold updateWhere
  rw [List.map_map]
  refine List.map_congr_left ?_
  intro x _
  by_cases hx : cond x = true
  · simp [Function.comp, hx, hc]
  · simp only [Bool.not_eq_true] at hx
    simp [Function.comp, hx]

theorem filter_map_length_le {α : Type} (p : α → Bool) (h : α → α)
    (rows : List α) (hp : ∀ x ∈ rows, p (h x) = true → p x = true) :
    ((rows.map h).filter p).length ≤ (rows.filter p).length := by
  induction rows with
  | nil => simp
  | cons x xs ih =>
      have ih' := ih fun y hy => hp y (List.mem_cons_of_mem x hy)
      by_cases hhx : p (h x) = true
      · have hx : p x = true := hp x (List.mem_cons_self x xs) hhx
        simp only [List.map_cons, List.filter_cons, hhx, hx, if_true,
          List.length_cons]
        omega
      · simp only [Bool.not_eq_true] at hhx
        by_cases hx : p x = true
        · simp only [List.map_cons, List.filter_cons, hhx, hx, if_true,
            Bool.false_eq_true, if_false, List.length_cons]
          omega
        · simp only [Bool.not_eq_true] at hx
          simp only [List.map_cons, List.filter_cons, hhx, hx,
            Bool.false_eq_true, if_false]
          exact ih'

theorem filter_length_le_one_unique {α : Type} (p : α → Bool) (l : List α)
    (h : ∀ a ∈ l, ∀ b ∈ l, p a = true → p b = true → a = b)
    (hnd : l.Pairwise fun a b => a ≠ b) :
    (l.filter p).length ≤ 1 := by
  induction l with
  | nil => simp
  | cons x xs ih =>
      rcases List.pairwise_cons.mp hnd with ⟨hx, hxs⟩
      by_cases hpx : p x = true
      · have hnone : xs.filter p = [] := by
          rw [List.filter_eq_nil_iff]
          intro b hb hpb
          have : x = b := h x (List.mem_cons_self x xs)
            b (List.mem_cons_of_mem x hb) hpx hpb
          exact hx b hb this
        simp [List.filter_cons, hpx, hnone]
      · simp only [Bool.not_eq_true] at hpx
        simp only [List.filter_cons, hpx]
        exact ih (fun a ha b hb => h a (List.mem_cons_of_mem x ha)
          b (List.mem_cons_of_mem x hb)) hxs

theorem foldl_pick_mem {α : Type} (f : α → α → α)
    (hf : ∀ a b, f a b = a ∨ f a b = b) (cs : List α) :
    ∀ c0 : α, cs.foldl f c0 ∈ c0 :: cs := by
  induction cs with
  | nil => intro c0; simp
  | cons j cs ih =>
      intro c0
      have h1 := ih (f c0 j)
      rcases hf c0 j with h | h <;>
        · rw [List.foldl_cons]
          rcases List.mem_cons.mp h1 with h2 | h2
          · rw [h2, h]; simp
          · simp [List.mem_cons_of_mem, h2]

/-! ### Characterizing `leaseNextJob` under unique job ids -/

def leaseUpd (owner : Str) (now leaseDurationMs : Nat) (j : JobRow) : JobRow :=
  { j with
    leaseOwner := some owner, leaseExpiresAt := some (now + leaseDurationMs),
    status := "leased".data, attempts := j.attempts + 1, updatedAt := now }

theorem jobLeasable_status (now : Nat) (j : JobRow)
    (h : jobLeasable now j = true) : j.status = "queued".data := by
  unfold jobLeasable at h
  simp only [Bool.and_eq_true, decide_eq_true_eq] at h
  exact h.1.1

theorem jobLeasable_leaseOk (now : Nat) (j : JobRow)
    (h : jobLeasable now j = true) :
    (j.leaseExpiresAt.isNone || decide (j.leaseExpiresAt.getD 0 ≤ now)) = true := by
  unfold jobLeasable at h
  simp only [Bool.and_eq_true, Bool.or_eq_true, decide_eq_true_eq] at h ⊢
  exact h.2

theorem leaseNextJob_spec (st : StoreState) (owner : Str) (now dur : Nat)
    (hU : st.jobs.Pairwise fun a b => a.id ≠ b.id) :
    (leaseNextJob st owner now dur = (st, none) ∧
      st.jobs.filter (jobLeasable now) = []) ∨
    (∃ c, c ∈ st.jobs ∧ jobLeasable now c = true ∧
      leaseNextJob st owner now dur =
        ({ st with
            jobs := updateWhere (fun j => decide (j.id = c.id))
              (leaseUpd owner now dur) st.jobs },
          some (leaseUpd owner now dur c))) := by
  unfold leaseNextJob
  rcases hcand : st.jobs.filter (jobLeasable now) with _ | ⟨c0, cs⟩
  · left
    exact ⟨rfl, rfl⟩
  · right
    set pick := fun (best j : JobRow) =>
      if j.availableAt < best.availableAt ∨
          (j.availableAt = best.availableAt ∧ j.createdAt < best.createdAt)
      then j else best with hpick
    have hpickor : ∀ a b, pick a b = a ∨ pick a b = b := by
      intro a b
      rw [hpick]
      by_cases h : b.availableAt < a.availableAt ∨
          (b.availableAt = a.availableAt ∧ b.createdAt < a.createdAt)
      · right; simp [h]
      · left; simp [h]
    set c := cs.foldl pick c0 with hc
    have hmemcand : c ∈ c0 :: cs := by
      rw [hc]; exact foldl_pick_mem pick hpickor cs c0
    have hmemfilter : c ∈ st.jobs.filter (jobLeasable now) := by
      rw [hcand]; exact hmemcand
    have hmem : c ∈ st.jobs := List.mem_of_mem_filter hmemfilter
    have hleasable : jobLeasable now c = true := List.of_mem_filter hmemfilter
    refine ⟨c, hmem, hleasable, ?_⟩
    have hjobs :
        updateWhere
          (fun j => j.id = c.id && j.status = "queued".data &&
            (j.leaseExpiresAt.isNone || j.leaseExpiresAt.getD 0 ≤ now))
          (fun j => { j with
            leaseOwner := some owner, leaseExpiresAt := some (now + dur),
            status := "leased".data, attempts := j.attempts + 1, updatedAt := now })
          st.jobs =
        updateWhere (fun j => decide (j.id = c.id)) (leaseUpd owner now dur)
          st.jobs := by
      unfold updateWhere
      refine List.map_congr_left ?_
      intro j hj
      by_cases hid : j.id = c.id
      · have hjc : j = c := pairwise_key_eq (fun x => x.id) st.jobs hU j hj c hmem hid
        subst hjc
        have hq := jobLeasable_status now c hleasable
        have hok := jobLeasable_leaseOk now c hleasable
        simp [leaseUpd, hq, hok]
      · simp [hid, leaseUpd]
    have hfind :
        (updateWhere (fun j => decide (j.id = c.id)) (leaseUpd owner now dur)
          st.jobs).find?
          (fun j => j.id = c.id && j.leaseOwner = some owner &&
            j.status = "leased".data) =
        some (leaseUpd owner now dur c) := by
      refine find?_eq_some_unique _ _ _ ?_ ?_ ?_
      · have := updateWhere_mem_of_mem (fun j => decide (j.id = c.id))
          (leaseUpd owner now dur) st.jobs c hmem
        simpa using this
      · simp [leaseUpd]
      · intro y hy hne
        rcases mem_updateWhere_image _ _ _ y hy with ⟨x, hx, hxy⟩
        by_cases hid : x.id = c.id
        · have hxc : x = c := pairwise_key_eq (fun z => z.id) st.jobs hU x hx c hmem hid
          subst hxc
          rw [hxy] at hne
          simp [hid] at hne
        · rw [hxy]
          simp [hid]
    have hgoal :
        (({ st with
            jobs := updateWhere
              (fun j => j.id = c.id && j.status = "queued".data &&
                (j.leaseExpiresAt.isNone || j.leaseExpiresAt.getD 0 ≤ now))
              (fun j => { j with
                leaseOwner := some owner, leaseExpiresAt := some (now + dur),
                status := "leased".data, attempts := j.attempts + 1,
                updatedAt := now }) st.jobs },
          (updateWhere
              (fun j => j.id = c.id && j.status = "queued".data &&
                (j.leaseExpiresAt.isNone || j.leaseExpiresAt.getD 0 ≤ now))
              (fun j => { j with
                leaseOwner := some owner, leaseExpiresAt := some (now + dur),
                status := "leased".data, attempts := j.attempts + 1,
                updatedAt := now }) st.jobs).find?
            (fun j => j.id = c.id && j.leaseOwner = some owner &&
              j.status = "leased".data)) : StoreState × Option JobRow) =
        ({ st with
            jobs := updateWhere (fun j => decide (j.id = c.id))
              (leaseUpd owner now dur) st.jobs },
          some (leaseUpd owner now dur c)) := by
      rw [hjobs, hfind]
    exact hgoal

/-! ### Invariant preservation building blocks -/

theorem activeCount_updateWhere_le (runs : List RunRow) (cond : RunRow → Bool)
    (upd : RunRow → RunRow) (hinact : ∀ x, isActiveRunStatus (upd x).status = false)
    (s : Str) :
    ((updateWhere cond upd runs).filter
      (fun r => r.sessionId = s && isActiveRunStatus r.status)).length ≤
    (runs.filter (fun r => r.sessionId = s && isActiveRunStatus r.status)).length := by
  unfold updateWhere
  refine filter_map_length_le _ _ _ ?_
  intro x _ hx
  by_cases hc : cond x = true
  · rw [if_pos hc] at hx
    simp only [Bool.and_eq_true] at hx
    rw [hinact x] at hx
    exact absurd hx.2 (by simp)
  · simp only [Bool.not_eq_true] at hc
    rw [hc] at hx
    simpa using hx

theorem persistFold_frame (env : OrchEnv) (rid : Str) (t : Nat)
    (evs : List NormalizedEngineEvent) :
    ∀ q : StoreState × Nat,
      ((evs.foldl
        (fun acc e =>
          ((appendRunEvent acc.1 (env.eventId acc.2) rid (eventTypeStr e)
            (env.payloadOf e) t).1, acc.2 + 1)) q).1.runs = q.1.runs ∧
       (evs.foldl
        (fun acc e =>
          ((appendRunEvent acc.1 (env.eventId acc.2) rid (eventTypeStr e)
            (env.payloadOf e) t).1, acc.2 + 1)) q).1.jobs = q.1.jobs) := by
  induction evs with
  | nil => intro q; exact ⟨rfl, rfl⟩
  | cons e evs ih =>
      intro q
      rw [List.foldl_cons]
      exact ih _

theorem persistEvents_runs (env : OrchEnv) (st : StoreState) (rid : Str)
    (evs : List NormalizedEngineEvent) (t : Nat) :
    (persistEvents env st rid evs t).runs = st.runs :=
  (persistFold_frame env rid t evs (st, 0)).1

theorem persistEvents_jobs (env : OrchEnv) (st : StoreState) (rid : Str)
    (evs : List NormalizedEngineEvent) (t : Nat) :
    (persistEvents env st rid evs t).jobs = st.jobs :=
  (persistFold_frame env rid t evs (st, 0)).2

/-- Invariant preservation for any `processNextLeasedJob` branch that
resolves the leased job: the run row at the job's run id is rewritten to
an inactive, non-in-flight status and the job row is rewritten to a
non-queued, non-leased status, ids and keys preserved. -/
theorem OrchInv_afterResolve (o o' : OrchState) (hInv : OrchInv o)
    (c : JobRow) (hc : c ∈ o.store.jobs)
    (r : RunRow) (hr : r ∈ o.store.runs) (hrid : r.id = c.runId)
    (jobUpd : JobRow → JobRow) (runUpd : RunRow → RunRow)
    (hjid : ∀ j, (jobUpd j).id = j.id)
    (hjrun : ∀ j, (jobUpd j).runId = j.runId)
    (hjnl : ∀ j, (jobUpd j).status ≠ "leased".data)
    (hjnq : ∀ j, (jobUpd j).status ≠ "queued".data)
    (hruid : ∀ x, (runUpd x).id = x.id)
    (hrkey : ∀ x, (runUpd x).idempotencyKey = x.idempotencyKey)
    (hrinact : ∀ x, isActiveRunStatus (runUpd x).status = false)
    (hrnif : ∀ x, (runUpd x).status ≠ "in_flight".data)
    (hruns : o'.store.runs =
      updateWhere (fun x => decide (x.id = r.id)) runUpd o.store.runs)
    (hjobs : o'.store.jobs =
      updateWhere (fun j => decide (j.id = c.id)) jobUpd o.store.jobs)
    (hact : o'.activeSessions = []) :
    OrchInv o' := by
  refine
    { singleFlight := ?_, runIdsUnique := ?_, runKeysUnique := ?_,
      noInFlight := ?_, noLeased := ?_, jobIdsUnique := ?_,
      jobRunIdsUnique := ?_, jobRunExists := ?_, queuedJobRunQueued := ?_,
      activeEmpty := hact }
  · intro s
    unfold activeCount
    rw [hruns]
    exact le_trans (activeCount_updateWhere_le _ _ _ hrinact s) (hInv.singleFlight s)
  · rw [hruns]
    exact pairwise_updateWhere _ _ _ _ hruid hInv.runIdsUnique
  · rw [hruns]
    exact pairwise_updateWhere _ _ _ _ hrkey hInv.runKeysUnique
  · intro x hx
    rw [hruns] at hx
    rcases mem_updateWhere_image _ _ _ x hx with ⟨y, hy, hxy⟩
    by_cases hcy : decide (y.id = r.id) = true
    · rw [hxy, if_pos hcy]; exact hrnif y
    · simp only [Bool.not_eq_true] at hcy
      rw [hxy, if_neg (by simp [hcy])]
      exact hInv.noInFlight y hy
  · intro j hj
    rw [hjobs] at hj
    rcases mem_updateWhere_image _ _ _ j hj with ⟨y, hy, hjy⟩
    by_cases hcy : decide (y.id = c.id) = true
    · rw [hjy, if_pos hcy]; exact hjnl y
    · simp only [Bool.not_eq_true] at hcy
      rw [hjy, if_neg (by simp [hcy])]
      exact hInv.noLeased y hy
  · rw [hjobs]
    exact pairwise_updateWhere _ _ _ _ hjid hInv.jobIdsUnique
  · rw [hjobs]
    exact pairwise_updateWhere _ _ _ _ hjrun hInv.jobRunIdsUnique
  · intro j hj
    rw [hjobs] at hj
    rcases mem_updateWhere_image _ _ _ j hj with ⟨y, hy, hjy⟩
    have hjyrun : j.runId = y.runId := by
      by_cases hcy : decide (y.id = c.id) = true
      · rw [hjy, if_pos hcy]; exact hjrun y
      · simp only [Bool.not_eq_true] at hcy
        rw [hjy, if_neg (by simp [hcy])]
    rcases hInv.jobRunExists y hy with ⟨r2, hr2, hr2id⟩
    refine ⟨if decide (r2.id = r.id) then runUpd r2 else r2, ?_, ?_⟩
    · rw [hruns]
      exact updateWhere_mem_of_mem _ _ _ r2 hr2
    · by_cases hc2 : decide (r2.id = r.id) = true
      · rw [if_pos hc2, hruid, hr2id, hjyrun]
      · simp only [Bool.not_eq_true] at hc2
        rw [if_neg (by simp [hc2]), hr2id, hjyrun]
  · intro j hj hjq
    rw [hjobs] at hj
    rcases mem_updateWhere_image _ _ _ j hj with ⟨y, hy, hjy⟩
    by_cases hcy : decide (y.id = c.id) = true
    · rw [hjy, if_pos hcy] at hjq
      exact absurd hjq (hjnq y)
    · simp only [decide_eq_true_eq] at hcy
      have hjy2 : j = y := by rw [hjy, if_neg (by simpa using hcy)]
      subst hjy2
      rcases hInv.queuedJobRunQueued j hy hjq with ⟨r2, hr2, hr2id, hr2q⟩
      have hjc : j ≠ c := fun he => hcy (by rw [he])
      have hrunne : j.runId ≠ c.runId :=
        pairwise_key_ne (fun x => x.runId) o.store.jobs hInv.jobRunIdsUnique
          j hy c hc hjc
      have hr2ne : r2.id ≠ r.id := by
        rw [hr2id, hrid]; exact hrunne
      refine ⟨r2, ?_, hr2id, hr2q⟩
      rw [hruns]
      have := updateWhere_mem_of_mem (fun x => decide (x.id = r.id)) runUpd
        o.store.runs r2 hr2
      rwa [if_neg (by simpa using hr2ne)] at this

theorem OrchInv_createRun (o o' : OrchState) (projectId sessionId key prompt : Str)
    (avail : Option Nat) (runId jobId : Str) (now : Nat) (rid : Str)
    (hInv : OrchInv o)
    (hfreshRun : ∀ r ∈ o.store.runs, r.id ≠ runId)
    (hfreshJob : ∀ j ∈ o.store.jobs, j.id ≠ jobId)
    (hcall : orchCreateRun o projectId sessionId key prompt avail runId jobId now =
      Except.ok (o', rid)) :
    OrchInv o' := by
  unfold orchCreateRun at hcall
  split at hcall
  case h_1 existing heqKey =>
    simp only [Except.ok.injEq, Prod.mk.injEq] at hcall
    obtain ⟨ho, _⟩ := hcall
    exact ho ▸ hInv
  case h_2 heqKey =>
    split at hcall
    · exact absurd hcall (by simp)
    · split at hcall
      case h_1 ar heqAct => exact absurd hcall (by simp)
      case h_2 heqAct =>
        simp only [Except.ok.injEq, Prod.mk.injEq] at hcall
        obtain ⟨ho, _⟩ := hcall
        subst ho
        have hkeys : ∀ a ∈ o.store.runs, a.idempotencyKey ≠ key := by
          intro a ha
          have := List.find?_eq_none.mp heqKey a ha
          simpa using this
        have hactnone : ∀ a ∈ o.store.runs,
            (a.sessionId = sessionId && isActiveRunStatus a.status) = false := by
          intro a ha
          have := List.find?_eq_none.mp heqAct a ha
          simpa using this
        refine
          { singleFlight := ?_, runIdsUnique := ?_, runKeysUnique := ?_,
            noInFlight := ?_, noLeased := ?_, jobIdsUnique := ?_,
            jobRunIdsUnique := ?_, jobRunExists := ?_, queuedJobRunQueued := ?_,
            activeEmpty := hInv.activeEmpty }
        · intro s
          unfold activeCount
          show ((o.store.runs ++ [_]).filter _).length ≤ 1
          rw [List.filter_append, List.length_append]
          by_cases hs : sessionId = s
          · subst hs
            have h0 : (o.store.runs.filter
                (fun r => r.sessionId = sessionId && isActiveRunStatus r.status)).length
                = 0 := by
              rw [List.filter_eq_nil_iff.mpr (fun a ha => by
                rw [hactnone a ha]; simp)]
              rfl
            rw [h0]
            simp [List.filter_cons, isActiveRunStatus]
          · simp only [List.filter_cons, List.filter_nil, List.length_nil]
            rw [if_neg (by simp [hs])]
            simpa using hInv.singleFlight s
        · refine List.pairwise_append.mpr ⟨hInv.runIdsUnique, ?_, ?_⟩
          · simp
          · intro a ha b hb
            simp only [List.mem_singleton] at hb
            subst hb
            exact hfreshRun a ha
        · refine List.pairwise_append.mpr ⟨hInv.runKeysUnique, ?_, ?_⟩
          · simp
          · intro a ha b hb
            simp only [List.mem_singleton] at hb
            subst hb
            exact hkeys a ha
        · intro x hx
          rcases List.mem_append.mp hx with h | h
          · exact hInv.noInFlight x h
          · simp only [List.mem_singleton] at h
            subst h
            exact (by decide : "queued".data ≠ "in_flight".data)
        · intro j hj
          rcases List.mem_append.mp hj with h | h
          · exact hInv.noLeased j h
          · simp only [List.mem_singleton] at h
            subst h
            exact (by decide : "queued".data ≠ "leased".data)
        · refine List.pairwise_append.mpr ⟨hInv.jobIdsUnique, ?_, ?_⟩
          · simp
          · intro a ha b hb
            simp only [List.mem_singleton] at hb
            subst hb
            exact hfreshJob a ha
        · refine List.pairwise_append.mpr ⟨hInv.jobRunIdsUnique, ?_, ?_⟩
          · simp
          · intro a ha b hb
            simp only [List.mem_singleton] at hb
            subst hb
            rcases hInv.jobRunExists a ha with ⟨r2, hr2, hr2id⟩
            show a.runId ≠ runId
            rw [← hr2id]
            exact hfreshRun r2 hr2
        · intro j hj
          rcases List.mem_append.mp hj with h | h
          · rcases hInv.jobRunExists j h with ⟨r2, hr2, hr2id⟩
            exact ⟨r2, List.mem_append_left _ hr2, hr2id⟩
          · simp only [List.mem_singleton] at h
            subst h
            refine ⟨_, List.mem_append_right _ (List.mem_singleton_self _), rfl⟩
        · intro j hj hjq
          rcases List.mem_append.mp hj with h | h
          · rcases hInv.queuedJobRunQueued j h hjq with ⟨r2, hr2, hr2id, hr2q⟩
            exact ⟨r2, List.mem_append_left _ hr2, hr2id, hr2q⟩
          · simp only [List.mem_singleton] at h
            subst h
            exact ⟨_, List.mem_append_right _ (List.mem_singleton_self _), rfl, rfl⟩

theorem OrchInv_cancel (o : OrchState) (runId : Str) (now : Nat)
    (hInv : OrchInv o) : OrchInv { o with store := cancelRun o.store runId now } := by
  refine
    { singleFlight := ?_, runIdsUnique := ?_, runKeysUnique := ?_,
      noInFlight := ?_, noLeased := ?_, jobIdsUnique := ?_,
      jobRunIdsUnique := ?_, jobRunExists := ?_, queuedJobRunQueued := ?_,
      activeEmpty := hInv.activeEmpty }
  · intro s
    unfold activeCount cancelRun
    exact le_trans
      (activeCount_updateWhere_le _ _ _ (fun x => by simp [isActiveRunStatus]) s)
      (hInv.singleFlight s)
  · exact pairwise_updateWhere _ _ _ _ (fun x => rfl) hInv.runIdsUnique
  · exact pairwise_updateWhere _ _ _ _ (fun x => rfl) hInv.runKeysUnique
  · intro x hx
    rcases mem_updateWhere_image _ _ _ x hx with ⟨y, hy, hxy⟩
    by_cases hcy : decide (y.id = runId) = true
    · rw [hxy, if_pos hcy]
      exact (by decide : "cancelled".data ≠ "in_flight".data)
    · simp only [Bool.not_eq_true] at hcy
      rw [hxy, if_neg (by simp [hcy])]
      exact hInv.noInFlight y hy
  · intro j hj
    rcases mem_updateWhere_image _ _ _ j hj with ⟨y, hy, hjy⟩
    by_cases hcy : decide (y.runId = runId) = true
    · rw [hjy, if_pos hcy]
      exact (by decide : "cancelled".data ≠ "leased".data)
    · simp only [Bool.not_eq_true] at hcy
      rw [hjy, if_neg (by simp [hcy])]
      exact hInv.noLeased y hy
  · exact pairwise_updateWhere _ _ _ _ (fun x => rfl) hInv.jobIdsUnique
  · exact pairwise_updateWhere _ _ _ _ (fun x => rfl) hInv.jobRunIdsUnique
  · intro j hj
    rcases mem_updateWhere_image _ _ _ j hj with ⟨y, hy, hjy⟩
    have hjrun : j.runId = y.runId := by
      by_cases hcy : decide (y.runId = runId) = true
      · rw [hjy, if_pos hcy]
      · simp only [Bool.not_eq_true] at hcy
        rw [hjy, if_neg (by simp [hcy])]
    rcases hInv.jobRunExists y hy with ⟨r2, hr2, hr2id⟩
    refine ⟨if decide (r2.id = runId) = true
        then { r2 with
          status := "cancelled".data, finishedAt := some now, updatedAt := now }
        else r2, ?_, ?_⟩
    · exact updateWhere_mem_of_mem _ _ _ r2 hr2
    · by_cases hc2 : decide (r2.id = runId) = true
      · rw [if_pos hc2]
        show r2.id = j.runId
        rw [hr2id, hjrun]
      · simp only [Bool.not_eq_true] at hc2
        rw [if_neg (by simp [hc2]), hr2id, hjrun]
  · intro j hj hjq
    rcases mem_updateWhere_image _ _ _ j hj with ⟨y, hy, hjy⟩
    by_cases hcy : decide (y.runId = runId) = true
    · rw [hjy, if_pos hcy] at hjq
      exact absurd hjq (by exact (by decide : ¬"cancelled".data = "queued".data))
    · simp only [decide_eq_true_eq] at hcy
      have hjy2 : j = y := by rw [hjy, if_neg (by simpa using hcy)]
      subst hjy2
      rcases hInv.queuedJobRunQueued j hy hjq with ⟨r2, hr2, hr2id, hr2q⟩
      have hr2ne : ¬r2.id = runId := by rw [hr2id]; exact hcy
      refine ⟨r2, ?_, hr2id, hr2q⟩
      have := updateWhere_mem_of_mem (fun x => decide (x.id = runId))
        (fun r => { r with
          status := "cancelled".data, finishedAt := some now, updatedAt := now })
        o.store.runs r2 hr2
      rwa [if_neg (by simpa using hr2ne)] at this

theorem reconcile_id (o : OrchState) (now staleBeforeMs : Nat)
    (hnif : ∀ r ∈ o.store.runs, r.status ≠ "in_flight".data) :
    (reconcileInFlightRuns o now staleBeforeMs).1 = o := by
  have h1 : listRunsByStatus o.store "in_flight".data = [] := by
    unfold listRunsByStatus
    rw [List.filter_eq_nil_iff]
    intro r hr
    simp [hnif r hr]
  unfold reconcileInFlightRuns
  rw [h1]
  rfl

def failUpdJob (m : Str) (now : Nat) (j : JobRow) : JobRow :=
  { j with
    status := "failed".data, leaseOwner := none, leaseExpiresAt := none,
    lastError := some m, updatedAt := now }

def completeUpdJob (now : Nat) (j : JobRow) : JobRow :=
  { j with
    status := "completed".data, leaseOwner := none, leaseExpiresAt := none,
    updatedAt := now }

def finUpdRun (status : Str) (fin : Nat) (sum : Option Str) (x : RunRow) : RunRow :=
  { x with
    status := status, finishedAt := some fin, summaryJson := sum, updatedAt := fin }

def markUpdRun (startedAt : Nat) (x : RunRow) : RunRow :=
  { x with
    status := "in_flight".data, startedAt := some startedAt, updatedAt := startedAt }

theorem mapExit_inactive (e : RunExitStatus) :
    isActiveRunStatus (mapExitStatusToRunStatus e) = false := by
  cases e <;> decide

theorem mapExit_ne_inflight (e : RunExitStatus) :
    mapExitStatusToRunStatus e ≠ "in_flight".data := by
  cases e <;> decide

theorem OrchInv_processJob (env : OrchEnv) (o : OrchState) (owner : Str)
    (now dur startedAt finishedAt : Nat) (exec : ExecOutcome)
    (hInv : OrchInv o) :
    OrchInv (processNextLeasedJob env o owner now dur startedAt finishedAt exec).1 := by
  rcases leaseNextJob_spec o.store owner now dur hInv.jobIdsUnique with
    ⟨heq, _⟩ | ⟨c, hc, hleas, heq⟩
  · unfold processNextLeasedJob
    rw [heq]
    exact hInv
  · have hcq := jobLeasable_status now c hleas
    obtain ⟨r, hr, hridr, hrq⟩ := hInv.queuedJobRunQueued c hc hcq
    have hget : (o.store.runs.find? fun x => decide (x.id = c.runId)) = some r := by
      refine find?_eq_some_unique _ _ _ hr ?_ ?_
      · simp [hridr]
      · intro y hy hne
        have h2 : y.id ≠ c.runId := by
          rw [← hridr]
          exact pairwise_key_ne (fun x => x.id) o.store.runs hInv.runIdsUnique
            y hy r hr hne
        simp [h2]
    unfold processNextLeasedJob
    split
    case h_1 st1 heq2 =>
      rw [heq] at heq2
      simp at heq2
    case h_2 st1 job heq2 =>
      rw [heq] at heq2
      simp only [Prod.mk.injEq, Option.some.injEq] at heq2
      obtain ⟨hst1, hjob⟩ := heq2
      subst hst1
      subst hjob
      split
      case h_1 heq3 =>
        have h : (o.store.runs.find? fun x => decide (x.id = c.runId)) = none := heq3
        rw [hget] at h
        exact Option.noConfusion h
      case h_2 run heq3 =>
        have h : (o.store.runs.find? fun x => decide (x.id = c.runId)) = some run :=
          heq3
        rw [hget] at h
        injection h with h4
        subst h4
        rw [hInv.activeEmpty]
        rw [show (([] : List Str).contains r.sessionId) = false from rfl]
        rw [if_neg (by simp)]
        split
        case h_1 heq4 =>
          refine OrchInv_afterResolve o _ hInv c hc r hr hridr
            (fun j => failUpdJob "missing session for run".data now
              (leaseUpd owner now dur j))
            (finUpdRun "failed".data now
              (some (summaryJsonOf
                { durationMs := 0, toolCallsCount := 0, bytesIn := 0,
                  bytesOut := 0, exitStatus := RunExitStatus.error })))
            (fun j => rfl) (fun j => rfl)
            (fun j => (by decide : ("failed".data : Str) ≠ "leased".data))
            (fun j => (by decide : ("failed".data : Str) ≠ "queued".data))
            (fun x => rfl) (fun x => rfl)
            (fun x => (by decide : isActiveRunStatus "failed".data = false))
            (fun x => (by decide : ("failed".data : Str) ≠ "in_flight".data))
            ?_ ?_ rfl
          · exact rfl
          · show updateWhere (fun j => decide (j.id = c.id))
              (failUpdJob "missing session for run".data now)
              (updateWhere (fun j => decide (j.id = c.id)) (leaseUpd owner now dur)
                o.store.jobs) = _
            exact updateWhere_comp _ _ _ _ (fun x => rfl)
        case h_2 sess heq4 =>
          cases exec with
          | ok events exitStatus bIn bOut persisted =>
              cases persisted with
              | true =>
                  refine OrchInv_afterResolve o _ hInv c hc r hr hridr
                    (fun j => completeUpdJob finishedAt (leaseUpd owner now dur j))
                    (fun x => finUpdRun (mapExitStatusToRunStatus exitStatus)
                      finishedAt
                      (some (summaryJsonOf (deriveRunSummary env startedAt
                        finishedAt events exitStatus bIn bOut)))
                      (markUpdRun startedAt x))
                    (fun j => rfl) (fun j => rfl)
                    (fun j => (by decide : ("completed".data : Str) ≠ "leased".data))
                    (fun j => (by decide : ("completed".data : Str) ≠ "queued".data))
                    (fun x => rfl) (fun x => rfl)
                    (fun x => mapExit_inactive exitStatus)
                    (fun x => mapExit_ne_inflight exitStatus)
                    ?_ ?_ rfl
                  · show updateWhere (fun x => decide (x.id = r.id))
                      (finUpdRun (mapExitStatusToRunStatus exitStatus) finishedAt
                        (some (summaryJsonOf (deriveRunSummary env startedAt
                          finishedAt events exitStatus bIn bOut))))
                      (updateWhere (fun x => decide (x.id = r.id))
                        (markUpdRun startedAt) o.store.runs) = _
                    exact updateWhere_comp _ _ _ _ (fun x => rfl)
                  · show updateWhere (fun j => decide (j.id = c.id))
                      (completeUpdJob finishedAt)
                      (updateWhere (fun j => decide (j.id = c.id))
                        (leaseUpd owner now dur) o.store.jobs) = _
                    exact updateWhere_comp _ _ _ _ (fun x => rfl)
              | false =>
                  refine OrchInv_afterResolve o _ hInv c hc r hr hridr
                    (fun j => completeUpdJob finishedAt (leaseUpd owner now dur j))
                    (fun x => finUpdRun (mapExitStatusToRunStatus exitStatus)
                      finishedAt
                      (some (summaryJsonOf (deriveRunSummary env startedAt
                        finishedAt events exitStatus bIn bOut)))
                      (markUpdRun startedAt x))
                    (fun j => rfl) (fun j => rfl)
                    (fun j => (by decide : ("completed".data : Str) ≠ "leased".data))
                    (fun j => (by decide : ("completed".data : Str) ≠ "queued".data))
                    (fun x => rfl) (fun x => rfl)
                    (fun x => mapExit_inactive exitStatus)
                    (fun x => mapExit_ne_inflight exitStatus)
                    ?_ ?_ rfl
                  · show updateWhere (fun x => decide (x.id = r.id))
                      (finUpdRun (mapExitStatusToRunStatus exitStatus) finishedAt
                        (some (summaryJsonOf (deriveRunSummary env startedAt
                          finishedAt events exitStatus bIn bOut))))
                      (persistEvents env
                        (markRunInFlight
                          { o.store with
                            jobs := updateWhere (fun j => decide (j.id = c.id))
                              (leaseUpd owner now dur) o.store.jobs }
                          r.id startedAt)
                        r.id events finishedAt).runs = _
                    rw [persistEvents_runs]
                    show updateWhere (fun x => decide (x.id = r.id))
                      (finUpdRun (mapExitStatusToRunStatus exitStatus) finishedAt
                        (some (summaryJsonOf (deriveRunSummary env startedAt
                          finishedAt events exitStatus bIn bOut))))
                      (updateWhere (fun x => decide (x.id = r.id))
                        (markUpdRun startedAt) o.store.runs) = _
                    exact updateWhere_comp _ _ _ _ (fun x => rfl)
                  · show updateWhere (fun j => decide (j.id = c.id))
                      (completeUpdJob finishedAt)
                      (persistEvents env
                        (markRunInFlight
                          { o.store with
                            jobs := updateWhere (fun j => decide (j.id = c.id))
                              (leaseUpd owner now dur) o.store.jobs }
                          r.id startedAt)
                        r.id events finishedAt).jobs = _
                    rw [persistEvents_jobs]
                    show updateWhere (fun j => decide (j.id = c.id))
                      (completeUpdJob finishedAt)
                      (updateWhere (fun j => decide (j.id = c.id))
                        (leaseUpd owner now dur) o.store.jobs) = _
                    exact updateWhere_comp _ _ _ _ (fun x => rfl)
          | thrown message =>
              refine OrchInv_afterResolve o _ hInv c hc r hr hridr
                (fun j => failUpdJob message finishedAt (leaseUpd owner now dur j))
                (fun x => finUpdRun "failed".data finishedAt
                  (some (summaryJsonOf
                    { durationMs := finishedAt - startedAt, toolCallsCount := 0,
                      bytesIn := 0, bytesOut := 0,
                      exitStatus := RunExitStatus.error }))
                  (markUpdRun startedAt x))
                (fun j => rfl) (fun j => rfl)
                (fun j => (by decide : ("failed".data : Str) ≠ "leased".data))
                (fun j => (by decide : ("failed".data : Str) ≠ "queued".data))
                (fun x => rfl) (fun x => rfl)
                (fun x => (by decide : isActiveRunStatus "failed".data = false))
                (fun x => (by decide : ("failed".data : Str) ≠ "in_flight".data))
                ?_ ?_ rfl
              · show updateWhere (fun x => decide (x.id = r.id))
                  (finUpdRun "failed".data finishedAt
                    (some (summaryJsonOf
                      { durationMs := finishedAt - startedAt, toolCallsCount := 0,
                        bytesIn := 0, bytesOut := 0,
                        exitStatus := RunExitStatus.error })))
                  (updateWhere (fun x => decide (x.id = r.id))
                    (markUpdRun startedAt) o.store.runs) = _
                exact updateWhere_comp _ _ _ _ (fun x => rfl)
              · show updateWhere (fun j => decide (j.id = c.id))
                  (failUpdJob message finishedAt)
                  (updateWhere (fun j => decide (j.id = c.id))
                    (leaseUpd owner now dur) o.store.jobs) = _
                exact updateWhere_comp _ _ _ _ (fun x => rfl)

theorem OrchInv_step (o o' : OrchState) (hs : OrchStep o o') (hInv : OrchInv o) :
    OrchInv o' := by
  cases hs with
  | createRunOk =>
      rename_i hfreshRun hfreshJob hcall
      exact OrchInv_createRun _ _ _ _ _ _ _ _ _ _ _ hInv hfreshRun hfreshJob hcall
  | processJob =>
      exact OrchInv_processJob _ _ _ _ _ _ _ _ hInv
  | reconcile =>
      rename_i now staleBeforeMs
      rw [reconcile_id _ now staleBeforeMs hInv.noInFlight]
      exact hInv
  | cancel =>
      exact OrchInv_cancel _ _ _ hInv

theorem OrchInv_init : OrchInv initOrchState := by
  refine
    { singleFlight := ?_, runIdsUnique := ?_, runKeysUnique := ?_,
      noInFlight := ?_, noLeased := ?_, jobIdsUnique := ?_,
      jobRunIdsUnique := ?_, jobRunExists := ?_, queuedJobRunQueued := ?_,
      activeEmpty := rfl }
  · intro s; exact Nat.zero_le 1
  all_goals simp [initOrchState, emptyStore]

theorem OrchInv_reach (o : OrchState) (h : OrchReach initOrchState o) :
    OrchInv o := by
  induction h with
  | refl => exact OrchInv_init
  | tail o1 o2 hr hs ih => exact OrchInv_step o1 o2 hs ih

/-! ### Run rows persist (id and idempotency key) across operations -/

def RunsPersist (A B : List RunRow) : Prop :=
  ∀ r ∈ A, ∃ r' ∈ B, r'.id = r.id ∧ r'.idempotencyKey = r.idempotencyKey

theorem runsPersist_refl (A : List RunRow) : RunsPersist A A :=
  fun r hr => ⟨r, hr, rfl, rfl⟩

theorem runsPersist_of_eq (A B : List RunRow) (h : A = B) : RunsPersist A B :=
  h ▸ runsPersist_refl A

theorem runsPersist_trans {A B C : List RunRow}
    (h1 : RunsPersist A B) (h2 : RunsPersist B C) : RunsPersist A C := by
  intro r hr
  obtain ⟨r1, h1m, hi1, hk1⟩ := h1 r hr
  obtain ⟨r2, h2m, hi2, hk2⟩ := h2 r1 h1m
  exact ⟨r2, h2m, by rw [hi2, hi1], by rw [hk2, hk1]⟩

theorem runsPersist_updateWhere (cond : RunRow → Bool) (upd : RunRow → RunRow)
    (rows : List RunRow) (hid : ∀ x, (upd x).id = x.id)
    (hkey : ∀ x, (upd x).idempotencyKey = x.idempotencyKey) :
    RunsPersist rows (updateWhere cond upd rows) := by
  intro r hr
  refine ⟨if cond r = true then upd r else r,
    updateWhere_mem_of_mem _ _ _ _ hr, ?_⟩
  by_cases hc : cond r = true
  · rw [if_pos hc, hid, hkey]; exact ⟨rfl, rfl⟩
  · rw [if_neg hc]; exact ⟨rfl, rfl⟩

theorem runsPersist_append (rows l : List RunRow) : RunsPersist rows (rows ++ l) :=
  fun r hr => ⟨r, List.mem_append_left _ hr, rfl, rfl⟩

theorem runsPersist_persistEvents (env : OrchEnv) (st : StoreState) (rid : Str)
    (evs : List NormalizedEngineEvent) (t : Nat) :
    RunsPersist st.runs (persistEvents env st rid evs t).runs :=
  runsPersist_of_eq _ _ (persistEvents_runs env st rid evs t).symm

theorem leaseNextJob_runs (st : StoreState) (owner : Str) (now dur : Nat) :
    ((leaseNextJob st owner now dur).1).runs = st.runs := by
  unfold leaseNextJob
  cases hcand : st.jobs.filter (jobLeasable now) with
  | nil => simp [hcand]
  | cons c0 cs => simp [hcand]

theorem processJob_persist (env : OrchEnv) (o : OrchState) (owner : Str)
    (now dur startedAt finishedAt : Nat) (exec : ExecOutcome) :
    RunsPersist o.store.runs
      (processNextLeasedJob env o owner now dur startedAt finishedAt
        exec).1.store.runs := by
  unfold processNextLeasedJob
  split
  case h_1 st1 heq2 =>
    have h2 : st1.runs = o.store.runs := by
      have h3 : (leaseNextJob o.store owner now dur).1.runs = st1.runs := by
        rw [heq2]
      rw [← h3]
      exact leaseNextJob_runs o.store owner now dur
    exact runsPersist_of_eq _ _ h2.symm
  case h_2 st1 job heq2 =>
    have hst1 : st1.runs = o.store.runs := by
      have h3 : (leaseNextJob o.store owner now dur).1.runs = st1.runs := by
        rw [heq2]
      rw [← h3]
      exact leaseNextJob_runs o.store owner now dur
    split
    case h_1 heq3 => exact runsPersist_of_eq _ _ hst1.symm
    case h_2 run heq3 =>
      split
      · exact runsPersist_of_eq _ _ hst1.symm
      · split
        case h_1 heq4 =>
          exact runsPersist_trans (runsPersist_of_eq _ _ hst1.symm)
            (runsPersist_updateWhere (fun x => decide (x.id = run.id))
              (finUpdRun "failed".data now
                (some (summaryJsonOf
                  { durationMs := 0, toolCallsCount := 0, bytesIn := 0,
                    bytesOut := 0, exitStatus := RunExitStatus.error })))
              st1.runs (fun x => rfl) (fun x => rfl))
        case h_2 sess heq4 =>
          cases exec with
          | ok events exitStatus bIn bOut persisted =>
              cases persisted with
              | true =>
                  refine runsPersist_trans (runsPersist_of_eq _ _ hst1.symm) ?_
                  refine runsPersist_trans
                    (runsPersist_updateWhere (fun x => decide (x.id = run.id))
                      (markUpdRun startedAt) st1.runs (fun x => rfl)
                      (fun x => rfl)) ?_
                  exact runsPersist_updateWhere (fun x => decide (x.id = run.id))
                    (finUpdRun (mapExitStatusToRunStatus exitStatus) finishedAt
                      (some (summaryJsonOf (deriveRunSummary env startedAt
                        finishedAt events exitStatus bIn bOut))))
                    (updateWhere (fun x => decide (x.id = run.id))
                      (markUpdRun startedAt) st1.runs)
                    (fun x => rfl) (fun x => rfl)
              | false =>
                  refine runsPersist_trans (runsPersist_of_eq _ _ hst1.symm) ?_
                  refine runsPersist_trans
                    (runsPersist_updateWhere (fun x => decide (x.id = run.id))
                      (markUpdRun startedAt) st1.runs (fun x => rfl)
                      (fun x => rfl)) ?_
                  refine runsPersist_trans
                    (runsPersist_persistEvents env
                      (markRunInFlight st1 run.id startedAt) run.id events
                      finishedAt) ?_
                  exact runsPersist_updateWhere (fun x => decide (x.id = run.id))
                    (finUpdRun (mapExitStatusToRunStatus exitStatus) finishedAt
                      (some (summaryJsonOf (deriveRunSummary env startedAt
                        finishedAt events exitStatus bIn bOut))))
                    (persistEvents env (markRunInFlight st1 run.id startedAt)
                      run.id events finishedAt).runs
                    (fun x => rfl) (fun x => rfl)
          | thrown message =>
              refine runsPersist_trans (runsPersist_of_eq _ _ hst1.symm) ?_
              refine runsPersist_trans
                (runsPersist_updateWhere (fun x => decide (x.id = run.id))
                  (markUpdRun startedAt) st1.runs (fun x => rfl)
                  (fun x => rfl)) ?_
              exact runsPersist_updateWhere (fun x => decide (x.id = run.id))
                (finUpdRun "failed".data finishedAt
                  (some (summaryJsonOf
                    { durationMs := finishedAt - startedAt, toolCallsCount := 0,
                      bytesIn := 0, bytesOut := 0,
                      exitStatus := RunExitStatus.error })))
                (updateWhere (fun x => decide (x.id = run.id))
                  (markUpdRun startedAt) st1.runs)
                (fun x => rfl) (fun x => rfl)

theorem reconcileFold_persist (now : Nat) (l : List RunRow) :
    ∀ acc : StoreState × List Str × Nat,
      RunsPersist acc.1.runs
        ((l.foldl
          (fun (acc : StoreState × List Str × Nat) run =>
            let st := abandonRun acc.1 run.id now
            let st := requeueLeasedJobByRunId st run.id now
            let requeued :=
              match getJobByRunId st run.id with
              | some j => if j.status = "queued".data then acc.2.2 + 1 else acc.2.2
              | none => acc.2.2
            (st, acc.2.1 ++ [run.id], requeued)) acc).1.runs) := by
  induction l with
  | nil => intro acc; exact runsPersist_refl _
  | cons run l ih =>
      intro acc
      rw [List.foldl_cons]
      refine runsPersist_trans ?_ (ih _)
      exact runsPersist_updateWhere _ _ _ (fun x => rfl) (fun x => rfl)

theorem orchStep_persist (o o' : OrchState) (hs : OrchStep o o') :
    RunsPersist o.store.runs o'.store.runs := by
  cases hs with
  | createRunOk =>
      rename_i hfreshRun hfreshJob hcall
      unfold orchCreateRun at hcall
      split at hcall
      case h_1 existing heqKey =>
        simp only [Except.ok.injEq, Prod.mk.injEq] at hcall
        obtain ⟨ho, _⟩ := hcall
        exact runsPersist_of_eq _ _ (by rw [ho])
      case h_2 heqKey =>
        split at hcall
        · exact absurd hcall (by simp)
        · split at hcall
          case h_1 ar heqAct => exact absurd hcall (by simp)
          case h_2 heqAct =>
            simp only [Except.ok.injEq, Prod.mk.injEq] at hcall
            obtain ⟨ho, _⟩ := hcall
            subst ho
            exact runsPersist_append _ _
  | processJob =>
      exact processJob_persist _ _ _ _ _ _ _ _
  | reconcile =>
      rename_i now staleBeforeMs
      unfold reconcileInFlightRuns
      exact reconcileFold_persist now
        (List.filter
          (fun run => decide (staleBeforeMs = 0) ||
            decide (staleBeforeMs ≤ now - run.startedAt.getD run.updatedAt))
          (listRunsByStatus o.store "in_flight".data))
        (o.store, ([] : List Str), 0)
  | cancel =>
      rename_i runId now
      exact runsPersist_updateWhere _ _ _ (fun x => rfl) (fun x => rfl)

theorem orchReach_persist (o o' : OrchState) (h : OrchReach o o') :
    RunsPersist o.store.runs o'.store.runs := by
  induction h with
  | refl => exact runsPersist_refl _
  | tail o1 o2 hr hs ih => exact runsPersist_trans ih (orchStep_persist o1 o2 hs)

theorem orchReach_trans (a b c : OrchState) (h1 : OrchReach a b)
    (h2 : OrchReach b c) : OrchReach a c := by
  induction h2 with
  | refl => exact h1
  | tail o1 o2 hr hs ih => exact OrchReach.tail a o1 o2 ih hs

/-- **C1** (amended). Session single-flight: in every orchestrator state
reachable from the initial state, at most one run per session is in an
active status (`queued`/`in_flight`/`leased`); and `createRun` throws
`SessionAlreadyActiveError` — returning an error and therefore inserting
neither a run nor a job — whenever the idempotency-key lookup misses and
either the in-memory active-sessions set contains the session or
`findActiveRunBySession` returns a run for it.  (The original claim is
refuted for the idempotency-key-hit path, which returns the existing run
without the single-flight check; see the counterexample.) -/
theorem sessionSingleFlight (o : OrchState) (h : OrchReach initOrchState o) :
    (∀ s, activeCount o.store s ≤ 1) ∧
    (∀ projectId sessionId idempotencyKey prompt availableAt runId jobId now,
      getRunByIdempotencyKey o.store idempotencyKey = none →
      (o.activeSessions.contains sessionId = true ∨
        (findActiveRunBySession o.store sessionId).isSome = true) →
      orchCreateRun o projectId sessionId idempotencyKey prompt availableAt
        runId jobId now =
        Except.error (OrchError.sessionAlreadyActive sessionId)) := by
  refine ⟨(OrchInv_reach o h).singleFlight, ?_⟩
  intro projectId sessionId key prompt avail runId jobId now hkey hact
  unfold orchCreateRun
  split
  case h_1 existing heq => rw [hkey] at heq; exact Option.noConfusion heq
  case h_2 heq =>
    split
    · rfl
    case isFalse hc =>
      split
      case h_1 ar heq2 => rfl
      case h_2 heq2 =>
        rcases hact with hc2 | hf
        · exact absurd hc2 hc
        · rw [heq2] at hf
          exact absurd hf (by simp)

/-- The state after one successful `createRun` on the empty store:
run `r1` (key `k`, session `s`) queued with its queued job `j1`. -/
def demoOrchState : OrchState :=
  match orchCreateRun initOrchState "p".data "s".data "k".data "hi".data none
      "r1".data "j1".data 0 with
  | Except.ok (o1, _) => o1
  | Except.error _ => initOrchState

theorem sessionSingleFlight_witness :
    activeCount demoOrchState.store "s".data ≤ 1 ∧
    orchCreateRun demoOrchState "p".data "s".data "k2".data "hi".data none
        "r2".data "j2".data 5 =
      Except.error (OrchError.sessionAlreadyActive "s".data) := by
  have hstep : OrchStep initOrchState demoOrchState :=
    OrchStep.createRunOk initOrchState demoOrchState "p".data "s".data "k".data
      "hi".data none "r1".data "j1".data 0 "r1".data
      (fun r hr => absurd hr (by simp [initOrchState, emptyStore]))
      (fun j hj => absurd hj (by simp [initOrchState, emptyStore]))
      rfl
  have h := sessionSingleFlight demoOrchState
    (OrchReach.tail initOrchState initOrchState demoOrchState
      (OrchReach.refl initOrchState) hstep)
  exact ⟨h.1 "s".data,
    h.2 "p".data "s".data "k2".data "hi".data none "r2".data "j2".data 5 rfl
      (Or.inr rfl)⟩

/-- **C1** counterexample to the unamended claim: in `demoOrchState` the
session `s` has an active (queued) run, so by the claim a `createRun`
for session `s` should throw `SessionAlreadyActiveError`; but a call
reusing idempotency key `k` takes the idempotency-hit path and returns
the existing run id `r1` with no error and no insert (the state is
returned unchanged). -/
theorem createRunIdempotentHit_counterexample :
    (findActiveRunBySession demoOrchState.store "s".data).isSome = true ∧
    orchCreateRun demoOrchState "p2".data "s".data "k".data "other".data none
        "r2".data "j2".data 5 = Except.ok (demoOrchState, "r1".data) :=
  ⟨rfl, rfl⟩

/-- **C3**. Enqueue is idempotent by key: if a `createRun` call with
idempotency key `key` completed with run id `rid` (taking either the
fresh-insert or the idempotent-hit path), then any later `createRun`
call with the same key — after any interleaving of orchestrator
operations — returns the same run id `rid` and the state unchanged
(inserting no new run and no new job); moreover at most one run row
carries the key and at most one job row references that run. -/
theorem enqueueIdempotentByKey (o o1 o2 : OrchState)
    (p1 s1 key pr1 : Str) (av1 : Option Nat) (runId1 jobId1 : Str) (now1 : Nat)
    (p2 s2 pr2 : Str) (av2 : Option Nat) (runId2 jobId2 : Str) (now2 : Nat)
    (rid : Str)
    (hreach0 : OrchReach initOrchState o)
    (hfreshRun : ∀ r ∈ o.store.runs, r.id ≠ runId1)
    (hfreshJob : ∀ j ∈ o.store.jobs, j.id ≠ jobId1)
    (hcall1 : orchCreateRun o p1 s1 key pr1 av1 runId1 jobId1 now1 =
      Except.ok (o1, rid))
    (hreach : OrchReach o1 o2) :
    orchCreateRun o2 p2 s2 key pr2 av2 runId2 jobId2 now2 =
      Except.ok (o2, rid) ∧
    (o2.store.runs.filter fun r => r.idempotencyKey = key).length ≤ 1 ∧
    (o2.store.jobs.filter fun j => j.runId = rid).length ≤ 1 := by
  have hstep : OrchStep o o1 :=
    OrchStep.createRunOk o o1 p1 s1 key pr1 av1 runId1 jobId1 now1 rid
      hfreshRun hfreshJob hcall1
  have hreach2 : OrchReach initOrchState o2 :=
    orchReach_trans _ _ _
      (OrchReach.tail initOrchState o o1 hreach0 hstep) hreach
  have hInv2 : OrchInv o2 := OrchInv_reach o2 hreach2
  have hkeyRun1 : ∃ run ∈ o1.store.runs, run.idempotencyKey = key ∧
      run.id = rid := by
    unfold orchCreateRun at hcall1
    split at hcall1
    case h_1 existing heqKey =>
      simp only [Except.ok.injEq, Prod.mk.injEq] at hcall1
      obtain ⟨ho, hrid⟩ := hcall1
      refine ⟨existing, ?_, ?_, hrid⟩
      · rw [← ho]
        exact List.mem_of_find?_eq_some heqKey
      · have := List.find?_some heqKey
        simpa using this
    case h_2 heqKey =>
      split at hcall1
      · exact absurd hcall1 (by simp)
      · split at hcall1
        case h_1 ar heqAct => exact absurd hcall1 (by simp)
        case h_2 heqAct =>
          simp only [Except.ok.injEq, Prod.mk.injEq] at hcall1
          obtain ⟨ho, hrid⟩ := hcall1
          refine ⟨{ id := runId1, projectId := p1, sessionId := s1, idempotencyKey := key, prompt := pr1, status := "queued".data, startedAt := none, finishedAt := none, summaryJson := none, createdAt := now1, updatedAt := now1 }, ?_, rfl, hrid⟩
          rw [← ho]
          show _ ∈ o.store.runs ++ _
          exact List.mem_append_right _ (List.mem_singleton_self _)
  obtain ⟨run1, hrun1, hrun1key, hrun1id⟩ := hkeyRun1
  obtain ⟨run2, hrun2, hrun2id, hrun2key⟩ :=
    orchReach_persist o1 o2 hreach run1 hrun1
  rw [hrun1key] at hrun2key
  rw [hrun1id] at hrun2id
  have hfind : getRunByIdempotencyKey o2.store key = some run2 := by
    refine find?_eq_some_unique _ _ _ hrun2 ?_ ?_
    · simp [hrun2key]
    · intro y hy hne
      have := pairwise_key_ne (fun x => x.idempotencyKey) o2.store.runs
        hInv2.runKeysUnique y hy run2 hrun2 hne
      have h2 : y.idempotencyKey ≠ key := by rw [← hrun2key]; exact this
      simp [h2]
  refine ⟨?_, ?_, ?_⟩
  · unfold orchCreateRun
    split
    case h_1 existing heq =>
      rw [hfind] at heq
      injection heq with h4
      subst h4
      rw [hrun2id]
    case h_2 heq =>
      rw [hfind] at heq
      exact Option.noConfusion heq
  · refine filter_length_le_one_unique _ _ ?_ ?_
    · intro a ha b hb hpa hpb
      simp only [decide_eq_true_eq] at hpa hpb
      exact pairwise_key_eq (fun x => x.idempotencyKey) o2.store.runs
        hInv2.runKeysUnique a ha b hb
        (by show a.idempotencyKey = b.idempotencyKey; rw [hpa, hpb])
    · exact hInv2.runIdsUnique.imp fun h he => h (by rw [he])
  · refine filter_length_le_one_unique _ _ ?_ ?_
    · intro a ha b hb hpa hpb
      simp only [decide_eq_true_eq] at hpa hpb
      exact pairwise_key_eq (fun x => x.runId) o2.store.jobs
        hInv2.jobRunIdsUnique a ha b hb
        (by show a.runId = b.runId; rw [hpa, hpb])
    · exact hInv2.jobIdsUnique.imp fun h he => h (by rw [he])

theorem enqueueIdempotentByKey_witness :
    orchCreateRun demoOrchState "q".data "t".data "k".data "yo".data none
        "r9".data "j9".data 7 = Except.ok (demoOrchState, "r1".data) ∧
    (demoOrchState.store.runs.filter
      fun r => r.idempotencyKey = "k".data).length ≤ 1 ∧
    (demoOrchState.store.jobs.filter
      fun j => j.runId = "r1".data).length ≤ 1 := by
  exact enqueueIdempotentByKey initOrchState demoOrchState demoOrchState
    "p".data "s".data "k".data "hi".data none "r1".data "j1".data 0
    "q".data "t".data "yo".data none "r9".data "j9".data 7 "r1".data
    (OrchReach.refl initOrchState)
    (fun r hr => absurd hr (by simp [initOrchState, emptyStore]))
    (fun j hj => absurd hj (by simp [initOrchState, emptyStore]))
    rfl (OrchReach.refl demoOrchState)

/-! ## Telegram command handler (packages/telegram/src/handler.ts)

Actions, chat state, the dashboard renderer, the `back` branch of
`handleCallbackQuery`, and `decorateUnsafeBanner`.  `Date#toISOString`
and `Date#toLocaleTimeString` enter as environment functions; the store
is the data the handler reads. -/

inductive TelegramAction where
  | reply (text : Str) : TelegramAction
  | send_document (filePath : Str) (caption : Option Str) : TelegramAction
  | reply_keyboard (text : Str)
      (inlineKeyboard : List (List (Str × Str))) : TelegramAction
  | edit_keyboard (messageId : Nat) (text : Str)
      (inlineKeyboard : List (List (Str × Str))) : TelegramAction
deriving DecidableEq

inductive EngineProvider where
  | claude : EngineProvider
  | opencode : EngineProvider
deriving DecidableEq

def engineStr : EngineProvider → Str
  | EngineProvider.claude => "claude".data
  | EngineProvider.opencode => "opencode".data

structure ChatState where
  projectId : Option Str
  sessionId : Option Str
  defaultEngine : EngineProvider
  model : Option Str
  openCodeAgent : Option Str
  unsafeUntil : Option Nat
  lastRunId : Option Str
deriving DecidableEq

structure TgProject where
  id : Str
  name : Str
deriving DecidableEq

structure TgSessionRec where
  id : Str
  projectId : Str
  engineSessionId : Option Str
deriving DecidableEq

/-- The store data the embedded handler paths read.  `getUnsafeUntil`'s
outer `Option` is whether the optional store method exists. -/
structure TgStore where
  projects : List TgProject
  sessionsById : List TgSessionRec
  getUnsafeUntil : Option (Option Nat)
deriving DecidableEq

structure TgEnv where
  iso : Nat → Str
  localeTime : Nat → Str
  now : Nat

def tgGetSessionById (store : TgStore) (sid : Str) : Option TgSessionRec :=
  store.sessionsById.find? fun s => s.id = sid

/-- `ensureProject`: keep the selected project, else select the first
listed one (mutating the chat state). -/
def tgEnsureProject (store : TgStore) (state : ChatState) :
    ChatState × Option Str :=
  match state.projectId with
  | some pid => (state, some pid)
  | none =>
      match store.projects with
      | [] => (state, none)
      | p :: _ => ({ state with projectId := some p.id }, some p.id)

def strJoin (sep : Str) : List Str → Str
  | [] => []
  | [x] => x
  | x :: xs => x ++ sep ++ strJoin sep xs

def chunkRows {α : Type} (n : Nat) : List α → List (List α)
  | [] => []
  | x :: xs =>
      if (x :: xs).length ≤ n then [x :: xs]
      else (x :: xs).take n :: chunkRows n (xs.drop (n - 1))
termination_by l => l.length
decreasing_by
  simp only [List.length_drop, List.length_cons]
  omega

/-- `renderDashboard`: the dashboard text and inline keyboard, as an
`edit_keyboard` when a message id is given and a `reply_keyboard`
otherwise.  Returns the (possibly `ensureProject`-mutated) state with
the actions. -/
def renderDashboard (env : TgEnv) (store : TgStore) (state : ChatState)
    (messageId : Option Nat) : ChatState × List TelegramAction :=
  let projects := store.projects
  let res := tgEnsureProject store state
  let state := res.1
  let currentProject := projects.find? fun p => some p.id = state.projectId
  let activeSession : Str :=
    match state.sessionId with
    | none => "new".data
    | some sid =>
        match tgGetSessionById store sid with
        | some rec =>
            match rec.engineSessionId with
            | some es =>
                if es = "__continue__".data then "new".data
                else es.take 8 ++ "…".data
            | none => "new".data
        | none => "new".data
  let unsafeOn : Bool :=
    match state.unsafeUntil with
    | some u => decide (env.now < u)
    | none => false
  let unsafeLabel : Str :=
    if unsafeOn then
      match state.unsafeUntil with
      | some u => "ON (until ".data ++ env.localeTime u ++ ")".data
      | none => "OFF".data
    else "OFF".data
  let modelLabel := state.model.getD "default".data
  let agentLabel := state.openCodeAgent.getD "default".data
  let textLines : List Str :=
    ["📋 OhMyRemote Dashboard".data,
     "".data,
     "Project: ".data ++
       (match currentProject with
        | some p => p.name
        | none => state.projectId.getD "unset".data),
     "Engine:  ".data ++ engineStr state.defaultEngine,
     "Model:   ".data ++ modelLabel] ++
    (if state.defaultEngine = EngineProvider.opencode
      then ["Agent:   ".data ++ agentLabel] else []) ++
    ["Session: ".data ++ activeSession,
     "Unsafe:  ".data ++ unsafeLabel]
  let text := strJoin "\n".data textLines
  let projectButtons : List (Str × Str) :=
    (projects.take 6).map fun p =>
      ((if state.projectId = some p.id then "✅ ".data ++ p.name else p.name),
        "proj:".data ++ p.id)
  let keyboard : List (List (Str × Str)) :=
    chunkRows 3 projectButtons ++
    [[((if state.defaultEngine = EngineProvider.claude
          then "claude ✓".data else "claude".data), "engine:claude".data),
      ((if state.defaultEngine = EngineProvider.opencode
          then "opencode ✓".data else "opencode".data), "engine:opencode".data)],
     [("🧠 Model: ".data ++ modelLabel, "models".data)],
     [("🆕 New Session".data, "newsession".data),
      ("💻 Sessions".data, "clisessions".data)],
     [("⚠️ Unsafe 30m".data, "unsafe:30".data),
      ("⚠️ Unsafe 60m".data, "unsafe:60".data),
      ((if unsafeOn then "🔒 Unsafe OFF".data else "🔒 Safe".data),
        "unsafe_off".data)],
     [("🔄 Refresh".data, "refresh".data)]]
  match messageId with
  | some mid =>
      (state, [TelegramAction.edit_keyboard mid text keyboard])
  | none => (state, [TelegramAction.reply_keyboard text keyboard])

/-- State hydration at the top of `handleCallbackQuery` (and
`handleUpdate`): when the store has `getUnsafeUntil`, overwrite the
chat state's `unsafeUntil` with the persisted value. -/
def hydrateFromStore (store : TgStore) (state : ChatState) : ChatState :=
  match store.getUnsafeUntil with
  | some v => { state with unsafeUntil := v }
  | none => state

def cbActionOf (s : Str) : Str := s.takeWhile fun c => c != ':'

/-- `handleCallbackQuery`, embedded for the dashboard-returning `back`
branch (`none` marks callback actions whose store mutations are not
modelled here).  After the switch the handler returns
`renderDashboard(state, messageId)` directly — the result is NOT passed
through `decorateUnsafeBanner`; only `handleUpdate` ends with
`return this.decorateUnsafeBanner(actions, state)`. -/
def handleCallbackQuery (env : TgEnv) (store : TgStore) (state0 : ChatState)
    (chatId : Nat) (callbackData : Str) (messageId : Nat) :
    Option (ChatState × List TelegramAction × Option Str) :=
  let state := hydrateFromStore store state0
  let action := cbActionOf callbackData
  if action = "back".data then
    let res := renderDashboard env store state (some messageId)
    some (res.1, res.2, none)
  else none

def trimEndStr (s : Str) : Str :=
  (s.reverse.dropWhile fun c =>
    c = ' ' || c = '\n' || c = '\t' || c = '\r').reverse

def bannerText (iso : Nat → Str) (u : Nat) : Str :=
  "UNSAFE MODE (expires ".data ++ iso u ++ ")\n".data

/-- The mapper applied to each action by `decorateUnsafeBanner` once the
guard has passed. -/
def applyBanner (iso : Nat → Str) (u : Nat) : TelegramAction → TelegramAction
  | TelegramAction.reply text => TelegramAction.reply (bannerText iso u ++ text)
  | TelegramAction.reply_keyboard text kb =>
      TelegramAction.reply_keyboard (bannerText iso u ++ text) kb
  | TelegramAction.edit_keyboard mid text kb =>
      TelegramAction.edit_keyboard mid (bannerText iso u ++ text) kb
  | TelegramAction.send_document fp caption =>
      TelegramAction.send_document fp
        (some (trimEndStr (bannerText iso u ++ caption.getD "".data)))

/-- `decorateUnsafeBanner`: identity unless `unsafeUntil` is set, nonzero
(JS falsiness) and strictly greater than now; otherwise prefix every
action's text (or caption) with the `UNSAFE MODE (expires <ISO>)`
banner.  (`some 0` behaves as the guard's `u <= now` case since
`0 ≤ now` always holds.) -/
def decorateUnsafeBanner (iso : Nat → Str) (now : Nat)
    (actions : List TelegramAction) (state : ChatState) :
    List TelegramAction :=
  match state.unsafeUntil with
  | none => actions
  | some u => if u ≤ now then actions else actions.map (applyBanner iso u)

def textOf : TelegramAction → Option Str
  | TelegramAction.reply text => some text
  | TelegramAction.reply_keyboard text _ => some text
  | TelegramAction.edit_keyboard _ text _ => some text
  | TelegramAction.send_document _ _ => none

def hasBanner (s : Str) : Bool :=
  List.isPrefixOf "UNSAFE MODE (expires ".data s

/-- **C9** (amended). Unsafe-mode banner: `decorateUnsafeBanner`
prefixes the text of every reply, reply-keyboard and edit-keyboard
action (and the caption of a send-document action) with
`UNSAFE MODE (expires <ISO>)\n` exactly when the chat's `unsafeUntil`
is set and strictly greater than the current time, and returns the
actions unchanged otherwise; but the callback-query handler returns
its dashboard actions directly, without applying the decoration — only
`handleUpdate` decorates.  (The original claim, that EVERY action the
handler produces while `unsafeUntil > now` carries the banner, is
refuted by the counterexample on `handleCallbackQuery`.) -/
theorem unsafeBannerScope (iso : Nat → Str) (now : Nat)
    (acts : List TelegramAction) (st : ChatState) :
    (∀ u, st.unsafeUntil = some u → now < u →
      decorateUnsafeBanner iso now acts st = acts.map (applyBanner iso u) ∧
      ∀ a t, textOf (applyBanner iso u a) = some t →
        hasBanner t = true ∧
        ∃ t0, textOf a = some t0 ∧ t = bannerText iso u ++ t0) ∧
    (st.unsafeUntil = none → decorateUnsafeBanner iso now acts st = acts) ∧
    (∀ u, st.unsafeUntil = some u → u ≤ now →
      decorateUnsafeBanner iso now acts st = acts) ∧
    (∀ env store st0 chatId mid,
      handleCallbackQuery env store st0 chatId "back".data mid =
        some ((renderDashboard env store (hydrateFromStore store st0)
            (some mid)).1,
          (renderDashboard env store (hydrateFromStore store st0)
            (some mid)).2,
          none)) := by
  refine ⟨?_, ?_, ?_, ?_⟩
  · intro u hu hlt
    constructor
    · unfold decorateUnsafeBanner
      rw [hu]
      show (if u ≤ now then acts else acts.map (applyBanner iso u)) = _
      rw [if_neg (by omega)]
    · intro a t ht
      have hpre : ∀ t0 : Str, hasBanner (bannerText iso u ++ t0) = true := by
        intro t0
        unfold hasBanner bannerText
        rw [List.append_assoc, List.append_assoc]
        exact List.isPrefixOf_iff_prefix.mpr (List.prefix_append _ _)
      cases a with
      | reply t0 =>
          simp only [applyBanner, textOf, Option.some.injEq] at ht
          exact ⟨ht ▸ hpre t0, t0, rfl, ht.symm⟩
      | reply_keyboard t0 kb =>
          simp only [applyBanner, textOf, Option.some.injEq] at ht
          exact ⟨ht ▸ hpre t0, t0, rfl, ht.symm⟩
      | edit_keyboard mid t0 kb =>
          simp only [applyBanner, textOf, Option.some.injEq] at ht
          exact ⟨ht ▸ hpre t0, t0, rfl, ht.symm⟩
      | send_document fp cap =>
          simp only [applyBanner, textOf] at ht
          exact Option.noConfusion ht
  · intro hu
    unfold decorateUnsafeBanner
    rw [hu]
  · intro u hu hle
    unfold decorateUnsafeBanner
    rw [hu]
    show (if u ≤ now then acts else acts.map (applyBanner iso u)) = _
    rw [if_pos hle]
  · intro env store st0 chatId mid
    rfl

def demoTgEnv : TgEnv :=
  { iso := fun _ => "1970-01-01T00:00:01.000Z".data,
    localeTime := fun _ => "00:00".data, now := 0 }

def demoTgStore : TgStore :=
  { projects := [{ id := "p1".data, name := "proj".data }],
    sessionsById := [], getUnsafeUntil := some (some 1000) }

def demoChatState : ChatState :=
  { projectId := none, sessionId := none,
    defaultEngine := EngineProvider.claude, model := none,
    openCodeAgent := none, unsafeUntil := none, lastRunId := none }

def demoCb : Option (ChatState × List TelegramAction × Option Str) :=
  handleCallbackQuery demoTgEnv demoTgStore demoChatState 1 "back".data 7

/-- **C9** counterexample: the store reports `unsafeUntil = 1000`, the
clock reads 0 (so the unsafe window is active and the claim demands a
banner on every produced text-bearing action), the hydrated state the
callback handler works with carries that `unsafeUntil` — yet the
edit-keyboard dashboard action returned by `handleCallbackQuery` has no
`UNSAFE MODE (expires` prefix on its text. -/
theorem callbackQueryNoBanner_counterexample :
    demoTgStore.getUnsafeUntil = some (some 1000) ∧ demoTgEnv.now = 0 ∧
    demoCb.map (fun r => r.1.unsafeUntil) = some (some 1000) ∧
    demoCb.map (fun r => r.2.1.map fun a => (textOf a).map hasBanner) =
      some [some false] :=
  ⟨rfl, rfl, rfl, rfl⟩
